import Mathlib

/-!
Folding and one-to-N operand adaptation.

A shallow embedding of the folders of the `plier` dialect
(`dpcomp/src/dialect.cpp`) and of the entry point of the XeTile to XeGPU
conversion pattern (`XeTileToXeGPUConversion.h`).

The MLIR graph is represented by handles: a `Value` is the address of its
implementation object, and the facts the code reads through a handle (the
type of a value, the operation defining it) are fields of an `IR` state.
Mutation (`setType`) is a function from `IR` to `IR`.
-/

namespace mlir

/-- The classes of builtin shaped types (tensor, memref, vector). -/
inductive ShapedKind where
  | tensor
  | memRef
  | vector
deriving DecidableEq, Repr

/-- An `mlir::Type`, given by its uniquing key. Types are interned, so two
type handles are equal exactly when their keys are; `plier.baseGet_later_eq_iff`
below derives this for `plier::PyType` from its storage class. A shaped type
without a rank has `shape = none`; a dynamic dimension is `-1`. -/
inductive Ty where
  | pyType (name : String)
  | shaped (kind : ShapedKind) (shape : Option (List Int)) (elementType : Ty)
  | other (id : Nat)
deriving DecidableEq, Repr

/-- The view `mlir::ShapedType` offers on a shaped type. -/
structure ShapedType where
  kind : ShapedKind
  shape : Option (List Int)
  elementType : Ty
deriving DecidableEq, Repr

/-- The checked downcast `type.cast<mlir::ShapedType>()`; `none` stands for
the assertion failure on a type that is not shaped. -/
def Ty.castShaped : Ty → Option ShapedType
  | .shaped kind shape elementType => some ⟨kind, shape, elementType⟩
  | _ => none

/-- The query `ShapedType::hasRank`. -/
def ShapedType.hasRank (t : ShapedType) : Bool := t.shape.isSome

/-- The accessor `ShapedType::getShape`, used on ranked types only. -/
def ShapedType.getShape (t : ShapedType) : List Int := t.shape.getD []

/-- The accessor `ShapedType::getElementType`. -/
def ShapedType.getElementType (t : ShapedType) : Ty := t.elementType

/-- The constructor `mlir::RankedTensorType::get(shape, elementType)`. The
check of construction invariants the library runs in builds with assertions
is outside the repository and is not part of the embedding. -/
def RankedTensorType.get (shape : List Int) (elementType : Ty) : Ty :=
  .shaped .tensor (some shape) elementType

/-- An `mlir::Attribute` that is not null. Only integer attributes are
inspected by the code; `getInt` is the payload of `integer`. -/
inductive Attribute where
  | integer (value : Int)
  | other (id : Nat)
deriving DecidableEq, Repr

/-- The downcast `attr.dyn_cast_or_null<mlir::IntegerAttr>()` followed by
`getInt()`, on a possibly null attribute. -/
def dynCastIntegerAttr : Option Attribute → Option Int
  | some (.integer value) => some value
  | _ => none

/-- An `mlir::Value`: a handle whose identity is the address of its
implementation. -/
structure Value where
  id : Nat
deriving DecidableEq, Repr

/-- An `mlir::Operation`: its registered name, its operands and its
results. -/
structure Operation where
  name : String
  operands : List Value
  results : List Value
deriving DecidableEq, Repr

/-- What the code reads through value handles. -/
structure IR where
  -- Value::getType
  typeOf : Value → Ty
  -- Value::getDefiningOp; none is the null pointer a block argument gives
  definingOp : Value → Option Operation

/-- The mutation `value.setType(type)`. -/
def IR.setType (ir : IR) (value : Value) (type : Ty) : IR :=
  { ir with typeOf := fun v => if v = value then type else ir.typeOf v }

/-- An `mlir::OpFoldResult` of the folders below, which never return an
attribute: `none` is the null result ("unchanged"), `some v` a value. -/
abbrev OpFoldResult := Option Value

/-- An `mlir::FuncOp`, by its entry block arguments. -/
structure FuncOp where
  arguments : List Value
deriving DecidableEq, Repr

/-- The accessor `FuncOp::getNumArguments`. -/
def FuncOp.getNumArguments (func : FuncOp) : Nat := func.arguments.length

/-- An `mlir::LogicalResult`. -/
inductive LogicalResult where
  | success
  | failure
deriving DecidableEq, Repr

end mlir

namespace plier

open mlir

/-- The registered name of `plier::BuildTupleOp`. -/
def BuildTupleOp.getOperationName : String := "plier.build_tuple"

/-- The op class `plier::BuildTupleOp`: a typed view of an operation. -/
structure BuildTupleOp where
  getOperation : Operation
deriving DecidableEq, Repr

/-- The accessor `getNumOperands` of a build-tuple op. -/
def BuildTupleOp.getNumOperands (op : BuildTupleOp) : Nat :=
  op.getOperation.operands.length

/-- The accessor `getOperand(i)` of a build-tuple op, within range. -/
def BuildTupleOp.getOperand (op : BuildTupleOp) (i : Nat)
    (h : i < op.getNumOperands) : Value :=
  op.getOperation.operands.get ⟨i, h⟩

/-- The query `val.getDefiningOp<plier::BuildTupleOp>()`. -/
def getDefiningBuildTupleOp (ir : IR) (val : Value) : Option BuildTupleOp :=
  match ir.definingOp val with
  | some op =>
    if op.name = BuildTupleOp.getOperationName then some ⟨op⟩ else none
  | none => none

/-- The op class `plier::ArgOp`: attribute `index` (32 bits, unsigned),
attribute `name`, one result. -/
structure ArgOp where
  index : Nat
  name : String
  result : Value
deriving DecidableEq, Repr

/-- The op class `plier::CastOp`: one operand, one result. -/
structure CastOp where
  operand : Value
  result : Value
deriving DecidableEq, Repr

/-- The op class `plier::GetItemOp`: operands `value` and `index`, one
result. -/
structure GetItemOp where
  value : Value
  index : Value
  result : Value
deriving DecidableEq, Repr

/-- The op class `plier::StaticGetItemOp`: operands `value` and
`index_var`, attribute `index` (unsigned), one result. -/
structure StaticGetItemOp where
  value : Value
  index_var : Value
  index : Nat
  result : Value
deriving DecidableEq, Repr

/-- The op class `plier::EnforceShapeOp`: operand `value`, variadic operands
`sizes`, one result. -/
structure EnforceShapeOp where
  value : Value
  sizes : List Value
  result : Value
deriving DecidableEq, Repr

/-- The key of `PyType::getUndefined`: the empty name. -/
def undefinedTy : Ty := .pyType ""

/-- The folder `ArgOp::fold` (dialect.cpp 152-165). `parentFunc` is the
result of `getOperation()->getParentOfType<mlir::FuncOp>()`. -/
def ArgOp.fold (ir : IR) (parentFunc : Option FuncOp) (op : ArgOp) :
    OpFoldResult :=
  match parentFunc with
  | some func =>
    let ind := op.index
    if h : ind < func.getNumArguments then
      if ir.typeOf (func.arguments.get ⟨ind, h⟩) = ir.typeOf op.result then
        some (func.arguments.get ⟨ind, h⟩)
      else none
    else none
  | none => none

/-- The folder `CastOp::fold` (dialect.cpp 192-201). -/
def CastOp.fold (ir : IR) (op : CastOp) : OpFoldResult :=
  let op_type := ir.typeOf op.operand
  let ret_type := ir.typeOf op.result
  if op_type = ret_type ∧ op_type ≠ undefinedTy then
    some op.operand
  else none

/-- The helper `fold_build_tuple_getitem` (dialect.cpp 243-262). `operands`
holds one possibly null attribute per operand of the folded op; the code reads
`operands[1]`. The null `mlir::Value` is `none`. -/
def fold_build_tuple_getitem (ir : IR) (val : Value) (type : Ty)
    (operands : List (Option Attribute)) : Option Value :=
  match getDefiningBuildTupleOp ir val with
  | some build_tuple =>
    match dynCastIntegerAttr (operands.getD 1 none) with
    | some index =>
      if h : 0 ≤ index ∧ index < (build_tuple.getNumOperands : Int) then
        let op := build_tuple.getOperand index.toNat (by omega)
        if ir.typeOf op = type then some op else none
      else none
    | none => none
  | none => none

/-- The folder `GetItemOp::fold` (dialect.cpp 271-278). -/
def GetItemOp.fold (ir : IR) (op : GetItemOp)
    (operands : List (Option Attribute)) : OpFoldResult :=
  match fold_build_tuple_getitem ir op.value (ir.typeOf op.result) operands with
  | some val => some val
  | none => none

/-- The folder `StaticGetItemOp::fold` (dialect.cpp 289-296). -/
def StaticGetItemOp.fold (ir : IR) (op : StaticGetItemOp)
    (operands : List (Option Attribute)) : OpFoldResult :=
  match fold_build_tuple_getitem ir op.value (ir.typeOf op.result) operands with
  | some val => some val
  | none => none

/-- The body of the loop of `EnforceShapeOp::fold` at index `i` (dialect.cpp
400-418), on the loop state `(final_shape, changed)`; `none` is the early
`return nullptr`. Both `operands[i]` and `final_shape[i]` are within range in
the loop, which runs over `i < num_dims`. -/
def EnforceShapeOp.foldStep (operands : List (Option Attribute))
    (state : List Int × Bool) (i : Nat) : Option (List Int × Bool) :=
  match dynCastIntegerAttr (operands.getD i none) with
  | some val =>
    if val ≠ -1 then
      if state.1.getD i (-1) ≠ -1 then
        if state.1.getD i (-1) ≠ val then none else some state
      else some (state.1.set i val, true)
    else some state
  | none => some state

/-- The loop of `EnforceShapeOp::fold` (dialect.cpp 397-419). -/
def EnforceShapeOp.foldLoop (operands : List (Option Attribute))
    (num_dims : Nat) (final_shape : List Int) : Option (List Int × Bool) :=
  (List.range num_dims).foldlM (EnforceShapeOp.foldStep operands)
    (final_shape, false)

/-- The initial `final_shape` of `EnforceShapeOp::fold` (dialect.cpp
387-396); `none` is the `return nullptr` on a rank mismatch. -/
def EnforceShapeOp.initialShape (src_type : ShapedType) (num_dims : Nat) :
    Option (List Int) :=
  if src_type.hasRank then
    let shape := src_type.getShape
    if shape.length ≠ num_dims then none else some shape
  else some (List.replicate num_dims (-1))

/-- The folder `EnforceShapeOp::fold` (dialect.cpp 383-428). It returns the
graph after the call and the fold result; the outer `none` is the assertion
of `cast<mlir::ShapedType>` on a result type that is not shaped. The cast
of `operands.size()` to `unsigned` is the identity here, since `operands`
has one entry per operand of an operation, whose count is stored in 32
bits. -/
def EnforceShapeOp.fold (ir : IR) (op : EnforceShapeOp)
    (operands : List (Option Attribute)) : Option (IR × OpFoldResult) :=
  let operands := operands.drop 1
  let num_dims := operands.length
  match (ir.typeOf op.result).castShaped with
  | none => none
  | some src_type =>
    match EnforceShapeOp.initialShape src_type num_dims with
    | none => some (ir, none)
    | some shape =>
      match EnforceShapeOp.foldLoop operands num_dims shape with
      | none => some (ir, none)
      | some (final_shape, changed) =>
        if changed then
          let final_type :=
            RankedTensorType.get final_shape src_type.getElementType
          some (ir.setType op.result final_type, some op.result)
        else some (ir, none)

namespace detail

/-- The storage class `detail::PyTypeStorage` (dialect.cpp 82-101); its key
type is the name. -/
structure PyTypeStorage where
  name : String
deriving DecidableEq, Repr

/-- The comparison `PyTypeStorage::operator==(const KeyTy&)`. -/
def PyTypeStorage.eqKey (storage : PyTypeStorage) (key : String) : Bool :=
  key == storage.name

/-- The allocation `PyTypeStorage::construct(allocator, key)`. -/
def PyTypeStorage.construct (key : String) : PyTypeStorage :=
  ⟨key⟩

end detail

/-- The part of an `mlir::MLIRContext` that uniques `PyType`: the storages
allocated so far, in allocation order. The position of a storage stands for
its address. -/
structure MLIRContext where
  storages : List detail.PyTypeStorage
deriving DecidableEq, Repr

/-- The type class `plier::PyType`: a handle on a storage of the context.
Two handles are equal when they point to the same storage. -/
structure PyType where
  impl : Nat
deriving DecidableEq, Repr

/-- The uniquing `Base::get(context, key)` of `mlir::Type::TypeBase`: the
storage that compares equal to the key through `operator==` is reused, and
when there is none a storage is constructed from the key. -/
def PyType.baseGet (context : MLIRContext) (key : String) :
    MLIRContext × PyType :=
  let i := context.storages.findIdx (fun storage => storage.eqKey key)
  if i < context.storages.length then (context, ⟨i⟩)
  else
    (⟨context.storages ++ [detail.PyTypeStorage.construct key]⟩,
      ⟨context.storages.length⟩)

/-- The factory `PyType::get` (dialect.cpp 125-129); `none` is the failure of
`assert(!name.empty())`. -/
def PyType.get (context : MLIRContext) (name : String) :
    Option (MLIRContext × PyType) :=
  if name = "" then none else some (PyType.baseGet context name)

/-- The factory `PyType::getUndefined` (dialect.cpp 131-134). -/
def PyType.getUndefined (context : MLIRContext) : MLIRContext × PyType :=
  PyType.baseGet context ""

/-- The factory `PyType::getNone` (dialect.cpp 136-139). -/
def PyType.getNone (context : MLIRContext) : MLIRContext × PyType :=
  PyType.baseGet context "none"

/-- The accessor `PyType::getName` (dialect.cpp 141-144): the name held by
the storage the handle points to; `none` for a handle that points to no
storage of the context. -/
def PyType.getName (context : MLIRContext) (type : PyType) : Option String :=
  (context.storages.get? type.impl).map (fun storage => storage.name)

end plier

namespace imex

open mlir

/-- The registered name of `mlir::UnrealizedConversionCastOp`. -/
def UnrealizedConversionCastOp.getOperationName : String :=
  "builtin.unrealized_conversion_cast"

/-- The op class `mlir::UnrealizedConversionCastOp`: a typed view of an
operation. -/
structure UnrealizedConversionCastOp where
  getOperation : Operation
deriving DecidableEq, Repr

/-- The accessor `UnrealizedConversionCastOp::getInputs`: the operands. -/
def UnrealizedConversionCastOp.getInputs (op : UnrealizedConversionCastOp) :
    List Value :=
  op.getOperation.operands

/-- The downcast
`llvm::dyn_cast_or_null<mlir::UnrealizedConversionCastOp>(op)`. -/
def dynCastUnrealizedConversionCastOp :
    Option Operation → Option UnrealizedConversionCastOp
  | some op =>
    if op.name = UnrealizedConversionCastOp.getOperationName then some ⟨op⟩
    else none
  | none => none

/-- An `mlir::OneToNTypeMapping` once computed: the converted types of each
original operand type. -/
structure OneToNTypeMapping where
  getConvertedTypes : Nat → List Ty

/-- The collaborators of the pattern that are not part of the header: the
rewriter query `getRemappedValues`, the converter query
`computeTypeMapping` (`none` is `failure` for both) and the three-argument
`matchAndRewrite` a derived pattern overrides, which receives the operation
and the value ranges of the adaptor. -/
structure PatternEnv where
  getRemappedValues : List Value → Option (List Value)
  computeTypeMapping : List Ty → Option OneToNTypeMapping
  userMatchAndRewrite : Operation → List (List Value) → LogicalResult

/-- What one call of the entry point did: it returned a diagnostic (which
converts to `failure`) before reaching the user-level rewrite, or it built
the adaptor over `convertedValues`, called the user-level rewrite with it and
returned its result. -/
inductive Outcome where
  | diagnostic (message : String)
  | userRewrite (convertedValues : List (List Value)) (result : LogicalResult)
deriving DecidableEq, Repr

/-- The `mlir::LogicalResult` the entry point returns. -/
def Outcome.result : Outcome → LogicalResult
  | .diagnostic _ => .failure
  | .userRewrite _ result => result

/-- The body of the loop over `llvm::enumerate(remappedValues)`
(XeTileToXeGPUConversion.h 159-172), on the vector `convertedValues`; an
error is the `return op->emitError(...)`. -/
def SgXeTileToXeGPUConversion.convertStep (ir : IR)
    (operandMapping : OneToNTypeMapping) (convertedValues : List (List Value))
    (entry : Nat × Value) : Except String (List (List Value)) :=
  let convertedTypes := operandMapping.getConvertedTypes entry.1
  if convertedTypes.length = 1 then
    .ok (convertedValues ++ [[entry.2]])
  else
    match dynCastUnrealizedConversionCastOp (ir.definingOp entry.2) with
    | some castOp => .ok (convertedValues ++ [castOp.getInputs])
    | none =>
      .error ("[SgXeTileToXeGPUConversion::matchAndRewrite] Unexpected that "
        ++ "cannot figure out the remapped input value.")

/-- The entry point `SgXeTileToXeGPUConversion::matchAndRewrite(op, rewriter)`
(XeTileToXeGPUConversion.h 124-179). -/
def SgXeTileToXeGPUConversion.matchAndRewrite (ir : IR) (env : PatternEnv)
    (op : Operation) : Outcome :=
  match env.getRemappedValues op.operands with
  | none => .diagnostic "Failed to get remapped values.\n"
  | some remappedValues =>
    let operandTys := op.operands.map ir.typeOf
    match env.computeTypeMapping operandTys with
    | none => .diagnostic "Failed to compute Type mapping.\n"
    | some operandMapping =>
      match remappedValues.enum.foldlM
          (SgXeTileToXeGPUConversion.convertStep ir operandMapping) [] with
      | .error message => .diagnostic message
      | .ok convertedValues =>
        .userRewrite convertedValues (env.userMatchAndRewrite op convertedValues)

end imex

/-!
Notions used to state the loop invariants.

These definitions are not part of the source; the claims are stated without
them.
-/

namespace plier
open mlir

/-- The size an attribute of a size operand asks for: the value of an integer
constant other than `-1`, and `none` for a null attribute, an attribute that
is not an integer, or the constant `-1`. -/
def requestedSize (attr : Option Attribute) : Option Int :=
  match dynCastIntegerAttr attr with
  | some val => if val = -1 then none else some val
  | none => none

/-- The refinement of one declared dimension `dim` by the attribute of its
size operand: an unknown dimension takes the requested size, when there is
one; any other dimension is kept. -/
def refinedDim (dim : Int) (attr : Option Attribute) : Int :=
  if dim = -1 then (requestedSize attr).getD dim else dim

/-- The declared shape the fold starts from: the shape of a ranked type, and
`num_dims` unknown dimensions for a type without a rank. -/
def declaredShape (shape : Option (List Int)) (num_dims : Nat) : List Int :=
  shape.getD (List.replicate num_dims (-1))

/-- Dimension `i` is contradictory, as the loop reads it: a size other than
`-1` is requested and the declared dimension is another size other than
`-1`. -/
def conflictAt (s : List Int) (c : List (Option Attribute)) (i : Nat) : Prop :=
  ∃ v, requestedSize (c.getD i none) = some v ∧ s.getD i (-1) ≠ -1 ∧ s.getD i (-1) ≠ v

/-- Dimension `i` is refined, as the loop reads it: it is declared unknown
and a size is requested. -/
def refinableAt (s : List Int) (c : List (Option Attribute)) (i : Nat) : Prop :=
  ∃ v, requestedSize (c.getD i none) = some v ∧ s.getD i (-1) = -1

/-- The context after a sequence of further `Base::get` calls, one per name
in `names`. -/
def PyType.baseGetAll (context : MLIRContext) (names : List String) :
    MLIRContext :=
  names.foldl (fun ctx name => (PyType.baseGet ctx name).1) context

/-- The handle `i` points to the first storage of `l` holding the key. -/
def FirstAt (l : List detail.PyTypeStorage) (key : String) (i : Nat) : Prop :=
  l[i]? = some ⟨key⟩ ∧ ∀ j, j < i → l[j]? ≠ some ⟨key⟩

end plier

namespace imex
open mlir

/-- The value range the loop of the entry point pushes for one enumerated
remapped value, when it pushes one: the value itself for a single converted
type, the inputs of the defining cast otherwise. -/
def SgXeTileToXeGPUConversion.operandRange (ir : IR)
    (operandMapping : OneToNTypeMapping) (entry : Nat × Value) :
    Option (List Value) :=
  if (operandMapping.getConvertedTypes entry.1).length = 1 then some [entry.2]
  else
    (dynCastUnrealizedConversionCastOp (ir.definingOp entry.2)).map
      UnrealizedConversionCastOp.getInputs

end imex

/-!
Sample graphs.
-/

namespace plier.sample

open mlir

/-- The first constituent of the tuple `(a, b, c)`. -/
def valA : Value := ⟨0⟩

/-- The second constituent of the tuple `(a, b, c)`. -/
def valB : Value := ⟨1⟩

/-- The third constituent of the tuple `(a, b, c)`. -/
def valC : Value := ⟨2⟩

/-- The result of the op building `(a, b, c)`. -/
def tupleValue : Value := ⟨3⟩

/-- A block argument used as index operand; it folds to no constant. -/
def indexValue : Value := ⟨4⟩

/-- The result of the ops folded to a value; its type is the type of `b`. -/
def itemResult : Value := ⟨5⟩

/-- The result of an enforce-shape op declared `[-1, -1]`. -/
def tensorResult : Value := ⟨6⟩

/-- The result of an enforce-shape op declared `[-1, 3]`. -/
def partlyKnownResult : Value := ⟨7⟩

/-- The result of a constant op, used as index or size operand. -/
def constValue0 : Value := ⟨8⟩

/-- The result of another constant op, used as size operand. -/
def constValue1 : Value := ⟨9⟩

/-- The tensor given to the enforce-shape op declared `[-1, -1]`. -/
def tensorInput : Value := ⟨10⟩

/-- The tensor given to the enforce-shape op declared `[-1, 3]`. -/
def partlyKnownInput : Value := ⟨11⟩

/-- The op building `(a, b, c)`. -/
def tupleOp : Operation :=
  ⟨"plier.build_tuple", [valA, valB, valC], [tupleValue]⟩

/-- A graph holding the values above. -/
def graph : IR where
  typeOf := fun v =>
    match v.id with
    | 0 => .pyType "int64"
    | 1 => .pyType "float64"
    | 2 => .pyType "bool"
    | 3 => .pyType "tuple"
    | 4 => .pyType "int64"
    | 5 => .pyType "float64"
    | 6 => .shaped .tensor (some [-1, -1]) (.other 0)
    | 7 => .shaped .tensor (some [-1, 3]) (.other 0)
    | 8 => .other 1
    | 9 => .other 1
    | 10 => .shaped .tensor (some [-1, -1]) (.other 0)
    | 11 => .shaped .tensor (some [-1, 3]) (.other 0)
    | _ => undefinedTy
  definingOp := fun v =>
    if v = tupleValue then some tupleOp
    else if v = constValue0 then some ⟨"std.constant", [], [constValue0]⟩
    else if v = constValue1 then some ⟨"std.constant", [], [constValue1]⟩
    else none

/-- An index access into the tuple through a constant index operand. -/
def getItem : GetItemOp := ⟨tupleValue, constValue0, itemResult⟩

/-- An index access into the tuple through an index that is no constant. -/
def getItemDynamic : GetItemOp := ⟨tupleValue, indexValue, itemResult⟩

/-- An index access into a value that no build-tuple op defines. -/
def getItemPlain : GetItemOp := ⟨valA, constValue0, itemResult⟩

/-- A static index access into the tuple, with static index `1` and an
`index_var` that is no constant. -/
def staticGetItem : StaticGetItemOp := ⟨tupleValue, indexValue, 1, itemResult⟩

/-- A static index access into the tuple, with static index `5` and a
constant `index_var`. -/
def staticGetItemFar : StaticGetItemOp := ⟨tupleValue, constValue0, 5, itemResult⟩

/-- A cast of `b` to its own type. -/
def cast : CastOp := ⟨valB, itemResult⟩

/-- A function of two arguments, typed as `a` and `b`. -/
def func : FuncOp := ⟨[valA, valB]⟩

/-- The op reading argument `1` of its function. -/
def arg : ArgOp := ⟨1, "x", itemResult⟩

/-- An enforce-shape op declared `[-1, -1]` with two constant size
operands. -/
def enforceShape : EnforceShapeOp :=
  ⟨tensorInput, [constValue0, constValue1], tensorResult⟩

/-- An enforce-shape op declared `[-1, 3]` with two constant size
operands. -/
def enforceShapePartly : EnforceShapeOp :=
  ⟨partlyKnownInput, [constValue0, constValue1], partlyKnownResult⟩

end plier.sample

namespace imex.sample

open mlir

/-- The input of the cast that defines `remappedPlain`. -/
def plainInput : Value := ⟨40⟩

/-- The inputs of the bridge that defines `remappedTile`. -/
def fragment0 : Value := ⟨30⟩

/-- The second input of the bridge that defines `remappedTile`. -/
def fragment1 : Value := ⟨31⟩

/-- An operand whose type converts to one type. -/
def plainOperand : Value := ⟨10⟩

/-- An operand whose type converts to two types. -/
def tileOperand : Value := ⟨11⟩

/-- The remapped value of `plainOperand`; a cast defines it. -/
def remappedPlain : Value := ⟨20⟩

/-- The remapped value of `tileOperand`; a bridge defines it. -/
def remappedTile : Value := ⟨21⟩

/-- The cast defining `remappedPlain`. -/
def plainCast : Operation :=
  ⟨"builtin.unrealized_conversion_cast", [plainInput], [remappedPlain]⟩

/-- The bridge defining `remappedTile`. -/
def bridge : Operation :=
  ⟨"builtin.unrealized_conversion_cast", [fragment0, fragment1], [remappedTile]⟩

/-- A graph holding the values above; the type `other 2` is the tile type. -/
def graph : IR where
  typeOf := fun v => if v = tileOperand ∨ v = remappedTile then .other 2 else .other 1
  definingOp := fun v =>
    if v = remappedPlain then some plainCast
    else if v = remappedTile then some bridge
    else none

/-- The operation being converted. -/
def sourceOp : Operation := ⟨"xetile.sample", [plainOperand, tileOperand], []⟩

/-- A type mapping: the tile type converts to two types, any other type to
itself. -/
def operandMapping (types : List Ty) : OneToNTypeMapping where
  getConvertedTypes := fun idx =>
    match types.get? idx with
    | some (.other 2) => [.other 3, .other 3]
    | some type => [type]
    | none => []

/-- Collaborators that succeed: operands are remapped by adding ten to their
handle, and the user-level rewrite succeeds. -/
def env : PatternEnv where
  getRemappedValues := fun values => some (values.map (fun v => ⟨v.id + 10⟩))
  computeTypeMapping := fun types => some (operandMapping types)
  userMatchAndRewrite := fun _ _ => .success

/-- Collaborators that leave every operand as it is. -/
def envIdentity : PatternEnv where
  getRemappedValues := fun values => some values
  computeTypeMapping := fun types => some (operandMapping types)
  userMatchAndRewrite := fun _ _ => .success

end imex.sample

/-!
Further operations: the erase of the one-to-N rewriter, the checked accesses
of `ArgOp::fold`, the pattern `EnforceShapeDim` and `PyCallOp::build`.
-/

namespace mlir

/-- The conversion `static_cast<uint32_t>(n)` (or `static_cast<unsigned>(n)`)
of a size or of an index that is not negative. -/
def castUInt32 (n : Nat) : Nat := n % 2 ^ 32

/-- The conversion `static_cast<int64_t>(n)` of a size. -/
def castInt64 (n : Nat) : Int :=
  if n % 2 ^ 64 < 2 ^ 63 then ((n % 2 ^ 64 : Nat) : Int)
  else ((n % 2 ^ 64 : Nat) : Int) - 2 ^ 64

/-- Modelled from the spec: the rewriter `mlir::ConversionPatternRewriter`
the header wraps, whose `eraseOp` is not under `src/`. Its state is the
operations of the graph and the pending Remappings, each an original value
with its current replacement values. -/
structure ConversionPatternRewriter where
  operations : List Operation
  remappings : List (Value × List Value)
deriving DecidableEq, Repr

/-- Modelled from the spec: the current values of an operand once the pending
Remappings are applied; a value without a Remapping stands for itself. -/
def ConversionPatternRewriter.remapped (rewriter : ConversionPatternRewriter)
    (value : Value) : List Value :=
  match rewriter.remappings.lookup value with
  | some values => values
  | none => [value]

/-- Modelled from the spec: the remaining uses of `op` after all pending
Remappings are applied, as the operations of the graph one of whose current
operands is a result of `op`. -/
def ConversionPatternRewriter.remainingUses
    (rewriter : ConversionPatternRewriter) (op : Operation) : List Operation :=
  rewriter.operations.filter
    (fun user => (user.operands.flatMap rewriter.remapped).any
      (fun value => op.results.contains value))

/-- Modelled from the spec: `erase(op)` removes an operation only when it has
zero remaining uses after all pending Remappings are applied; attempting to
erase an operation with outstanding uses is an error. -/
def ConversionPatternRewriter.eraseOp (rewriter : ConversionPatternRewriter)
    (op : Operation) : Except String ConversionPatternRewriter :=
  if rewriter.remainingUses op = [] then
    .ok { rewriter with operations := rewriter.operations.erase op }
  else .error "erase of an operation with outstanding uses"

/-- The part of an `mlir::PatternRewriter` a canonicalization pattern acts
on: the replacements requested so far, each the result of the replaced
operation with the value that replaces it. -/
structure PatternRewriter where
  replacements : List (Value × Value)
deriving DecidableEq, Repr

/-- The mutation `rewriter.replaceOp(op, newValue)` for an operation with one
result. -/
def PatternRewriter.replaceOp (rewriter : PatternRewriter) (opResult : Value)
    (newValue : Value) : PatternRewriter :=
  ⟨rewriter.replacements ++ [(opResult, newValue)]⟩

/-- The op class `mlir::memref::DimOp`: operands `memrefOrTensor` and
`index`, one result. -/
structure DimOp where
  memrefOrTensor : Value
  index : Value
  result : Value
deriving DecidableEq, Repr

/-- The accessor `FuncOp::getArgument(idx)`; `none` stands for an index out
of range. -/
def FuncOp.getArgument (func : FuncOp) (idx : Nat) : Option Value :=
  func.arguments.get? idx

end mlir

namespace imex

open mlir

/-- The class `XeGPUOneToNPatterRewriter` (XeTileToXeGPUConversion.h
52-104), by the rewriter it wraps. -/
structure XeGPUOneToNPatterRewriter where
  rewriter : ConversionPatternRewriter
deriving DecidableEq, Repr

/-- The method `XeGPUOneToNPatterRewriter::eraseOp`
(XeTileToXeGPUConversion.h 90): the call is forwarded to the wrapped
rewriter. -/
def XeGPUOneToNPatterRewriter.eraseOp (self : XeGPUOneToNPatterRewriter)
    (op : Operation) : Except String XeGPUOneToNPatterRewriter :=
  match self.rewriter.eraseOp op with
  | .ok rewriter => .ok { self with rewriter := rewriter }
  | .error message => .error message

end imex

namespace plier

open mlir

/-- The folder `ArgOp::fold` (dialect.cpp 152-165) with its two accesses to
the argument list checked: the outer `none` is an access out of range,
`some r` is the fold result `r` when every access is within range. -/
def ArgOp.foldChecked (ir : IR) (parentFunc : Option FuncOp) (op : ArgOp) :
    Option OpFoldResult :=
  match parentFunc with
  | some func =>
    let ind := op.index
    if ind < func.getNumArguments then
      match func.getArgument ind with
      | none => none
      | some argument =>
        if ir.typeOf argument = ir.typeOf op.result then
          match func.getArgument ind with
          | none => none
          | some returned => some (some returned)
        else some none
    else some none
  | none => some none

/-- The registered name of `plier::EnforceShapeOp`. -/
def EnforceShapeOp.getOperationName : String := "plier.enforce_shape"

/-- The downcast `mlir::dyn_cast_or_null<plier::EnforceShapeOp>(op)`: the
first operand is `value`, the others are `sizes`. -/
def dynCastEnforceShapeOp : Option Operation → Option EnforceShapeOp
  | some op =>
    if op.name = EnforceShapeOp.getOperationName then
      match op.operands, op.results with
      | value :: sizes, [result] => some ⟨value, sizes, result⟩
      | _, _ => none
    else none
  | none => none

/-- The pattern `EnforceShapeDim::matchAndRewrite` (dialect.cpp 436-457).
`getConstVal` is the helper `plier::getConstVal` of `const_utils.hpp`, which
gives the constant attribute of a value and null when there is none. The
access `sizes()[...]` is checked: the outer `none` is an access out of range,
otherwise the result and the rewriter after the call are returned. -/
def EnforceShapeDim.matchAndRewrite (ir : IR)
    (getConstVal : Value → Option Attribute) (op : DimOp)
    (rewriter : PatternRewriter) : Option (LogicalResult × PatternRewriter) :=
  match dynCastEnforceShapeOp (ir.definingOp op.memrefOrTensor) with
  | none => some (.failure, rewriter)
  | some enforce_op =>
    match dynCastIntegerAttr (getConstVal op.index) with
    | none => some (.failure, rewriter)
    | some index =>
      if index < 0 ∨ index ≥ castInt64 enforce_op.sizes.length then
        some (.failure, rewriter)
      else
        match enforce_op.sizes.get? (castUInt32 index.toNat) with
        | none => none
        | some size => some (.success, rewriter.replaceOp op.result size)

/-- The op class `plier::PyCallOp`, by what the generated builder receives:
the result type, the callee, the arguments, the callee name, `kw_start` and
`kw_names`. -/
structure PyCallOp where
  resultType : Ty
  func : Value
  args : List Value
  func_name : String
  kw_start : Nat
  kw_names : List String
deriving DecidableEq, Repr

/-- The largest size of an `llvm::SmallVector` of values or of attributes,
whose size field has 32 bits. -/
def smallVectorMaxSize : Nat := 2 ^ 32 - 1

/-- The call `vector.reserve(n)` on an empty `llvm::SmallVector`; `none` is
the fatal error of a capacity beyond the largest size. The elements are kept,
so only the success of the call is returned. -/
def smallVectorReserve (n : Nat) : Option Unit :=
  if n > smallVectorMaxSize then none else some ()

/-- The call `vector.push_back(x)` on an `llvm::SmallVector`; `none` is the
fatal error of growing beyond the largest size. -/
def smallVectorPushBack {α : Type} (vector : List α) (x : α) : Option (List α) :=
  if vector.length < smallVectorMaxSize then some (vector ++ [x]) else none

/-- The body of the loop over `kwargs` of `PyCallOp::build` (dialect.cpp
213-217), on the state `(kw_names, all_args)`. -/
def PyCallOp.buildStep (state : List String × List Value)
    (a : String × Value) : Option (List String × List Value) :=
  match smallVectorPushBack state.1 a.1 with
  | none => none
  | some kw_names =>
    match smallVectorPushBack state.2 a.2 with
    | none => none
    | some all_args => some (kw_names, all_args)

/-- The builder `PyCallOp::build` with positional arguments and a keyword
list (dialect.cpp 203-220); `none` is a fatal error of one of the two
vectors. The sum given to the first `reserve` is computed in `size_t`. -/
def PyCallOp.build (func : Value) (func_name : String) (args : List Value)
    (kwargs : List (String × Value)) : Option PyCallOp :=
  match smallVectorReserve ((args.length + kwargs.length) % 2 ^ 64) with
  | none => none
  | some _ =>
    match args.foldlM smallVectorPushBack [] with
    | none => none
    | some all_args =>
      let kw_start := castUInt32 all_args.length
      match smallVectorReserve kwargs.length with
      | none => none
      | some _ =>
        match kwargs.foldlM PyCallOp.buildStep ([], all_args) with
        | none => none
        | some state =>
          some ⟨undefinedTy, func, state.2, func_name, kw_start, state.1⟩

end plier

namespace plier.sample

open mlir

/-- The operand of a cast between two values of the undefined type. -/
def undefinedOperand : Value := ⟨100⟩

/-- The result of a cast between two values of the undefined type. -/
def undefinedResult : Value := ⟨101⟩

/-- A cast from the undefined type to the undefined type. -/
def castUndefined : CastOp := ⟨undefinedOperand, undefinedResult⟩

/-- A cast from the type of `a` to the type of `b`. -/
def castDifferent : CastOp := ⟨valA, itemResult⟩

/-- The op reading argument `2` of a function of two arguments. -/
def argFar : ArgOp := ⟨2, "y", itemResult⟩

/-- The enforce-shape op that defines `tensorResult`, as an operation. -/
def enforceShapeOperation : Operation :=
  ⟨"plier.enforce_shape", [tensorInput, constValue0, constValue1], [tensorResult]⟩

/-- The sample graph with `tensorResult` defined by the enforce-shape op. -/
def graphWithEnforce : IR where
  typeOf := graph.typeOf
  definingOp := fun v =>
    if v = tensorResult then some enforceShapeOperation else graph.definingOp v

/-- The constant attributes of the sample graph: `constValue0` is the
constant `1`, `constValue1` the constant `7`. -/
def constants (v : Value) : Option Attribute :=
  if v = constValue0 then some (.integer 1)
  else if v = constValue1 then some (.integer 7)
  else none

/-- The result of the dim ops of the sample. -/
def dimResult : Value := ⟨12⟩

/-- The dim op reading dimension `1` of `tensorResult`. -/
def dim : DimOp := ⟨tensorResult, constValue0, dimResult⟩

/-- The dim op reading dimension `7` of `tensorResult`. -/
def dimFar : DimOp := ⟨tensorResult, constValue1, dimResult⟩

end plier.sample

namespace imex.sample

open mlir

/-- An operation with one result. -/
def producer : Operation := ⟨"xetile.producer", [], [⟨50⟩]⟩

/-- An operation using the result of `producer`. -/
def consumer : Operation := ⟨"xetile.consumer", [⟨50⟩], [⟨51⟩]⟩

/-- A rewriter over `producer` and `consumer`, without pending
Remappings. -/
def wrapped : XeGPUOneToNPatterRewriter := ⟨⟨[producer, consumer], []⟩⟩

/-- A rewriter over `producer` and `consumer` where the result of `producer`
is remapped to another value. -/
def wrappedRemapped : XeGPUOneToNPatterRewriter :=
  ⟨⟨[producer, consumer], [(⟨50⟩, [⟨60⟩])]⟩⟩

end imex.sample

/-!
Theorems.
-/

namespace plier
open mlir

theorem fold_build_tuple_getitem_eq_some_iff (ir : IR) (val : Value) (type : Ty)
    (operands : List (Option Attribute)) (v : Value) :
    fold_build_tuple_getitem ir val type operands = some v ↔
      ∃ (tup : Operation) (i : Nat),
        ir.definingOp val = some tup ∧ tup.name = "plier.build_tuple" ∧
        operands.getD 1 none = some (.integer (i : Int)) ∧
        tup.operands[i]? = some v ∧ ir.typeOf v = type := by
  unfold fold_build_tuple_getitem getDefiningBuildTupleOp
  generalize operands.getD 1 none = indexAttr
  constructor
  · intro h
    cases hd : ir.definingOp val with
    | none => simp [hd] at h
    | some tup =>
      simp only [hd] at h
      by_cases hn : tup.name = BuildTupleOp.getOperationName
      · simp only [hn, if_true] at h
        cases ha : indexAttr with
        | none => simp [ha, dynCastIntegerAttr] at h
        | some a =>
          cases a with
          | other k => simp [ha, dynCastIntegerAttr] at h
          | integer i =>
            simp only [ha, dynCastIntegerAttr] at h
            split at h
            · rename_i hr
              split at h
              · rename_i ht
                refine ⟨tup, i.toNat, rfl, hn, ?_, ?_, ?_⟩
                · rw [Int.toNat_of_nonneg hr.1]
                · simp only [Option.some.injEq] at h
                  rw [← h]
                  simp [BuildTupleOp.getOperand, List.getElem?_eq_getElem]
                · simp only [Option.some.injEq] at h
                  rw [← h]; exact ht
              · simp at h
            · simp at h
      · simp [hn] at h
  · rintro ⟨tup, i, hd, hn, ha, hv, ht⟩
    have hlt : i < tup.operands.length := by
      rcases List.getElem?_eq_some_iff.mp hv with ⟨h, _⟩
      exact h
    have hv2 : tup.operands[i] = v := by
      rcases List.getElem?_eq_some_iff.mp hv with ⟨_, h⟩
      exact h
    have hn2 : tup.name = BuildTupleOp.getOperationName := hn
    simp only [hd, hn2, if_true, ha, dynCastIntegerAttr]
    have hr : 0 ≤ (i : Int) ∧ (i : Int) < ((⟨tup⟩ : BuildTupleOp).getNumOperands : Int) := by
      constructor
      · omega
      · simp [BuildTupleOp.getNumOperands]; exact hlt
    rw [dif_pos hr]
    simp [BuildTupleOp.getOperand, hv2, ht]

theorem getItemOp_fold_eq (ir : IR) (op : GetItemOp) (operands : List (Option Attribute)) :
    GetItemOp.fold ir op operands =
      fold_build_tuple_getitem ir op.value (ir.typeOf op.result) operands := by
  unfold GetItemOp.fold
  cases fold_build_tuple_getitem ir op.value (ir.typeOf op.result) operands <;> rfl

theorem staticGetItemOp_fold_eq (ir : IR) (op : StaticGetItemOp)
    (operands : List (Option Attribute)) :
    StaticGetItemOp.fold ir op operands =
      fold_build_tuple_getitem ir op.value (ir.typeOf op.result) operands := by
  unfold StaticGetItemOp.fold
  cases fold_build_tuple_getitem ir op.value (ir.typeOf op.result) operands <;> rfl

theorem argOp_fold_eq_some (ir : IR) (parentFunc : Option FuncOp) (op : ArgOp) (v : Value)
    (h : ArgOp.fold ir parentFunc op = some v) :
    ∃ func, parentFunc = some func ∧ func.arguments[op.index]? = some v ∧
      ir.typeOf v = ir.typeOf op.result := by
  unfold ArgOp.fold at h
  cases parentFunc with
  | none => simp at h
  | some func =>
    simp only [] at h
    split at h
    · rename_i hlt
      split at h
      · rename_i ht
        simp only [Option.some.injEq] at h
        subst h
        refine ⟨func, rfl, ?_, ht⟩
        simp [List.getElem?_eq_getElem (show op.index < func.arguments.length from hlt)]
      · simp at h
    · simp at h

theorem castOp_fold_eq_some (ir : IR) (op : CastOp) (v : Value)
    (h : CastOp.fold ir op = some v) :
    v = op.operand ∧ ir.typeOf v = ir.typeOf op.result ∧ ir.typeOf v ≠ undefinedTy := by
  unfold CastOp.fold at h
  simp only [] at h
  split at h
  · rename_i hc
    simp only [Option.some.injEq] at h
    subst h
    exact ⟨rfl, hc.1, hc.2⟩
  · simp at h

/-- C1: a `GetItemOp` or `StaticGetItemOp` folds to a value `v` exactly when
its value operand is defined by a `BuildTupleOp`, the attribute of its index
operand is an integer constant `i` with `0 ≤ i < n`, `v` is operand `i` of the
tuple and the type of `v` is the declared result type; in every other case
(negative or too large index, type mismatch, index that is not a constant,
value not produced by a `BuildTupleOp`) no value satisfies the right-hand
side, so the fold is `none` ("unchanged"). -/
theorem getitem_fold_build_tuple (ir : IR) (valueAttr indexAttr : Option Attribute)
    (v : Value) :
    (∀ op : GetItemOp,
      GetItemOp.fold ir op [valueAttr, indexAttr] = some v ↔
        ∃ (tup : Operation) (i : Nat),
          ir.definingOp op.value = some tup ∧ tup.name = "plier.build_tuple" ∧
          indexAttr = some (.integer (i : Int)) ∧
          tup.operands[i]? = some v ∧ ir.typeOf v = ir.typeOf op.result) ∧
    (∀ op : StaticGetItemOp,
      StaticGetItemOp.fold ir op [valueAttr, indexAttr] = some v ↔
        ∃ (tup : Operation) (i : Nat),
          ir.definingOp op.value = some tup ∧ tup.name = "plier.build_tuple" ∧
          indexAttr = some (.integer (i : Int)) ∧
          tup.operands[i]? = some v ∧ ir.typeOf v = ir.typeOf op.result) := by
  refine ⟨fun op => ?_, fun op => ?_⟩
  · rw [getItemOp_fold_eq, fold_build_tuple_getitem_eq_some_iff]; rfl
  · rw [staticGetItemOp_fold_eq, fold_build_tuple_getitem_eq_some_iff]; rfl

/-- The scenario of C1 evaluated: on the tuple `(a, b, c)`, index `1` folds
to `b`; index `5`, index `-1`, index `0` (whose type differs), an index that
is not a constant and a value no `BuildTupleOp` defines are "unchanged". -/
theorem getitem_fold_scenario :
    GetItemOp.fold sample.graph sample.getItem [none, some (.integer 1)] = some sample.valB ∧
    GetItemOp.fold sample.graph sample.getItem [none, some (.integer 5)] = none ∧
    GetItemOp.fold sample.graph sample.getItem [none, some (.integer (-1))] = none ∧
    GetItemOp.fold sample.graph sample.getItem [none, some (.integer 0)] = none ∧
    GetItemOp.fold sample.graph sample.getItemDynamic [none, none] = none ∧
    GetItemOp.fold sample.graph sample.getItemPlain [none, some (.integer 1)] = none := by
  decide

/-- C5: whenever `ArgOp::fold`, `CastOp::fold`, `GetItemOp::fold` or
`StaticGetItemOp::fold` returns a value, that value is a value of the graph
as it stands (an argument of the enclosing function, the operand of the cast,
an operand of the defining tuple) and its type is the result type of the
folded operation. -/
theorem value_replacing_folds_preserve_type (ir : IR) (v : Value) :
    (∀ (parentFunc : Option FuncOp) (op : ArgOp),
      ArgOp.fold ir parentFunc op = some v →
        (∃ func, parentFunc = some func ∧ v ∈ func.arguments) ∧
        ir.typeOf v = ir.typeOf op.result) ∧
    (∀ op : CastOp,
      CastOp.fold ir op = some v →
        v = op.operand ∧ ir.typeOf v = ir.typeOf op.result) ∧
    (∀ (op : GetItemOp) (operands : List (Option Attribute)),
      GetItemOp.fold ir op operands = some v →
        (∃ tup, ir.definingOp op.value = some tup ∧ tup.name = "plier.build_tuple" ∧
          v ∈ tup.operands) ∧
        ir.typeOf v = ir.typeOf op.result) ∧
    (∀ (op : StaticGetItemOp) (operands : List (Option Attribute)),
      StaticGetItemOp.fold ir op operands = some v →
        (∃ tup, ir.definingOp op.value = some tup ∧ tup.name = "plier.build_tuple" ∧
          v ∈ tup.operands) ∧
        ir.typeOf v = ir.typeOf op.result) := by
  refine ⟨?_, ?_, ?_, ?_⟩
  · intro parentFunc op h
    obtain ⟨func, h1, h2, h3⟩ := argOp_fold_eq_some ir parentFunc op v h
    exact ⟨⟨func, h1, List.getElem?_mem h2⟩, h3⟩
  · intro op h
    obtain ⟨h1, h2, _⟩ := castOp_fold_eq_some ir op v h
    exact ⟨h1, h2⟩
  · intro op operands h
    rw [getItemOp_fold_eq, fold_build_tuple_getitem_eq_some_iff] at h
    obtain ⟨tup, i, h1, h2, _, h4, h5⟩ := h
    exact ⟨⟨tup, h1, h2, List.getElem?_mem h4⟩, h5⟩
  · intro op operands h
    rw [staticGetItemOp_fold_eq, fold_build_tuple_getitem_eq_some_iff] at h
    obtain ⟨tup, i, h1, h2, _, h4, h5⟩ := h
    exact ⟨⟨tup, h1, h2, List.getElem?_mem h4⟩, h5⟩

/-- Witness of C5: each of the four folds returns `b` on the sample graph,
and `b` has the type of the folded result. -/
theorem value_replacing_folds_preserve_type_witness :
    (ArgOp.fold sample.graph (some sample.func) sample.arg = some sample.valB ∧
      ((∃ func, some sample.func = some func ∧ sample.valB ∈ func.arguments) ∧
        sample.graph.typeOf sample.valB = sample.graph.typeOf sample.arg.result)) ∧
    (CastOp.fold sample.graph sample.cast = some sample.valB ∧
      (sample.valB = sample.cast.operand ∧
        sample.graph.typeOf sample.valB = sample.graph.typeOf sample.cast.result)) ∧
    (GetItemOp.fold sample.graph sample.getItem [none, some (.integer 1)] = some sample.valB ∧
      ((∃ tup, sample.graph.definingOp sample.getItem.value = some tup ∧
          tup.name = "plier.build_tuple" ∧ sample.valB ∈ tup.operands) ∧
        sample.graph.typeOf sample.valB = sample.graph.typeOf sample.getItem.result)) ∧
    (StaticGetItemOp.fold sample.graph sample.staticGetItem [none, some (.integer 1)] =
        some sample.valB ∧
      ((∃ tup, sample.graph.definingOp sample.staticGetItem.value = some tup ∧
          tup.name = "plier.build_tuple" ∧ sample.valB ∈ tup.operands) ∧
        sample.graph.typeOf sample.valB = sample.graph.typeOf sample.staticGetItem.result)) :=
  ⟨⟨by decide,
      (value_replacing_folds_preserve_type sample.graph sample.valB).1
        (some sample.func) sample.arg (by decide)⟩,
    ⟨by decide,
      (value_replacing_folds_preserve_type sample.graph sample.valB).2.1
        sample.cast (by decide)⟩,
    ⟨by decide,
      (value_replacing_folds_preserve_type sample.graph sample.valB).2.2.1
        sample.getItem [none, some (.integer 1)] (by decide)⟩,
    ⟨by decide,
      (value_replacing_folds_preserve_type sample.graph sample.valB).2.2.2
        sample.staticGetItem [none, some (.integer 1)] (by decide)⟩⟩

/-- Counterexample to C6 as stated: with static index `1` on the tuple
`(a, b, c)`, where `b` has the declared result type, the fold is "unchanged"
when the `index_var` operand does not fold to a constant; and with static
index `5`, out of range, the fold returns `b` when `index_var` folds to
`1`. -/
theorem static_getitem_fold_ignores_static_index :
    (sample.graph.definingOp sample.staticGetItem.value = some sample.tupleOp ∧
      sample.tupleOp.name = "plier.build_tuple" ∧
      sample.staticGetItem.index = 1 ∧
      sample.tupleOp.operands[sample.staticGetItem.index]? = some sample.valB ∧
      sample.graph.typeOf sample.valB = sample.graph.typeOf sample.staticGetItem.result ∧
      StaticGetItemOp.fold sample.graph sample.staticGetItem [none, none] = none) ∧
    (sample.graph.definingOp sample.staticGetItemFar.value = some sample.tupleOp ∧
      sample.staticGetItemFar.index = 5 ∧
      sample.tupleOp.operands.length = 3 ∧
      StaticGetItemOp.fold sample.graph sample.staticGetItemFar [none, some (.integer 1)] =
        some sample.valB) := by
  decide

/-- C6, amended: for a `StaticGetItemOp` whose `index_var` operand folds to
the integer constant `i` and whose value operand is defined by a
`BuildTupleOp` with `n` operands, the fold returns operand `i` of the tuple
when `0 ≤ i < n` and that operand has the declared result type, and it does
not fold when `i` is out of range. The static index attribute is not
read. -/
theorem static_getitem_fold_index_var (ir : IR) (op : StaticGetItemOp) (tup : Operation)
    (valueAttr : Option Attribute) (i : Int)
    (hdef : ir.definingOp op.value = some tup) (hname : tup.name = "plier.build_tuple") :
    (∀ v, 0 ≤ i → tup.operands[i.toNat]? = some v → ir.typeOf v = ir.typeOf op.result →
      StaticGetItemOp.fold ir op [valueAttr, some (.integer i)] = some v) ∧
    ((i < 0 ∨ (tup.operands.length : Int) ≤ i) →
      StaticGetItemOp.fold ir op [valueAttr, some (.integer i)] = none) := by
  refine ⟨?_, ?_⟩
  · intro v h0 hv ht
    rw [staticGetItemOp_fold_eq, fold_build_tuple_getitem_eq_some_iff]
    refine ⟨tup, i.toNat, hdef, hname, ?_, hv, ht⟩
    rw [Int.toNat_of_nonneg h0]; rfl
  · intro hout
    cases hf : StaticGetItemOp.fold ir op [valueAttr, some (.integer i)] with
    | none => rfl
    | some v =>
      exfalso
      rw [staticGetItemOp_fold_eq, fold_build_tuple_getitem_eq_some_iff] at hf
      obtain ⟨tup2, k, h1, _, h3, h4, _⟩ := hf
      rw [hdef] at h1
      simp only [Option.some.injEq] at h1
      subst h1
      have hk : k < tup.operands.length := by
        rcases List.getElem?_eq_some_iff.mp h4 with ⟨h, _⟩
        exact h
      have hik : i = (k : Int) := by
        have : [valueAttr, some (Attribute.integer i)].getD 1 none =
            some (Attribute.integer i) := rfl
        rw [this] at h3
        simp only [Option.some.injEq, Attribute.integer.injEq] at h3
        exact h3
      omega

/-- Witness of the amended C6: on the tuple `(a, b, c)`, an `index_var`
folded to `1` gives `b` and an `index_var` folded to `5` gives no fold. -/
theorem static_getitem_fold_index_var_witness :
    (sample.graph.definingOp sample.staticGetItemFar.value = some sample.tupleOp ∧
      sample.tupleOp.name = "plier.build_tuple") ∧
    StaticGetItemOp.fold sample.graph sample.staticGetItemFar [none, some (.integer 1)] =
      some sample.valB ∧
    StaticGetItemOp.fold sample.graph sample.staticGetItemFar [none, some (.integer 5)] =
      none :=
  ⟨by decide,
    (static_getitem_fold_index_var sample.graph sample.staticGetItemFar sample.tupleOp
      none 1 (by decide) (by decide)).1 sample.valB (by decide) (by decide) (by decide),
    (static_getitem_fold_index_var sample.graph sample.staticGetItemFar sample.tupleOp
      none 5 (by decide) (by decide)).2 (Or.inr (by decide))⟩

theorem foldStep_eq (c : List (Option Attribute)) (fs : List Int) (ch : Bool) (i : Nat) :
    EnforceShapeOp.foldStep c (fs, ch) i =
      match requestedSize (c.getD i none) with
      | none => some (fs, ch)
      | some v =>
        if fs.getD i (-1) = -1 then some (fs.set i v, true)
        else if fs.getD i (-1) = v then some (fs, ch) else none := by
  unfold EnforceShapeOp.foldStep requestedSize
  cases h : dynCastIntegerAttr (c.getD i none) with
  | none => simp
  | some val =>
    by_cases hv : val = -1
    · simp [hv]
    · by_cases h1 : fs.getD i (-1) = -1
      · simp [hv, h1]
      · by_cases h2 : fs.getD i (-1) = val
        · simp [hv, h1, h2]
        · simp [hv, h1, h2]

theorem foldStep_of_none {c : List (Option Attribute)} {fs : List Int} {ch : Bool} {i : Nat}
    (hreq : requestedSize (c.getD i none) = none) :
    EnforceShapeOp.foldStep c (fs, ch) i = some (fs, ch) := by
  rw [foldStep_eq, hreq]

theorem foldStep_of_unknown {c : List (Option Attribute)} {fs : List Int} {ch : Bool} {i : Nat}
    {v : Int} (hreq : requestedSize (c.getD i none) = some v) (h : fs.getD i (-1) = -1) :
    EnforceShapeOp.foldStep c (fs, ch) i = some (fs.set i v, true) := by
  rw [foldStep_eq, hreq]; simp only [h, if_true]

theorem foldStep_of_agree {c : List (Option Attribute)} {fs : List Int} {ch : Bool} {i : Nat}
    {v : Int} (hreq : requestedSize (c.getD i none) = some v) (h1 : fs.getD i (-1) ≠ -1)
    (h2 : fs.getD i (-1) = v) :
    EnforceShapeOp.foldStep c (fs, ch) i = some (fs, ch) := by
  rw [foldStep_eq, hreq]; simp only []; rw [if_neg h1, if_pos h2]

theorem foldStep_of_conflict {c : List (Option Attribute)} {fs : List Int} {ch : Bool} {i : Nat}
    {v : Int} (hreq : requestedSize (c.getD i none) = some v) (h1 : fs.getD i (-1) ≠ -1)
    (h2 : fs.getD i (-1) ≠ v) :
    EnforceShapeOp.foldStep c (fs, ch) i = none := by
  rw [foldStep_eq, hreq]; simp only []; rw [if_neg h1, if_neg h2]

theorem refinedDim_of_none {d : Int} {a : Option Attribute} (h : requestedSize a = none) :
    refinedDim d a = d := by
  unfold refinedDim; rw [h]; simp

theorem refinedDim_of_unknown {a : Option Attribute} {v : Int} (h : requestedSize a = some v) :
    refinedDim (-1) a = v := by
  unfold refinedDim; rw [h]; simp

theorem refinedDim_of_known {d : Int} (a : Option Attribute) (h : d ≠ -1) :
    refinedDim d a = d := by
  unfold refinedDim; rw [if_neg h]

theorem foldLoop_upTo (c : List (Option Attribute)) (s : List Int) (k : Nat)
    (hk : k ≤ s.length) :
    ((∃ i, i < k ∧ conflictAt s c i) →
      (List.range k).foldlM (EnforceShapeOp.foldStep c) (s, false) = none) ∧
    ((¬ ∃ i, i < k ∧ conflictAt s c i) →
      ∃ fs ch, (List.range k).foldlM (EnforceShapeOp.foldStep c) (s, false) = some (fs, ch) ∧
        (∀ j, fs[j]? = if j < k then (s[j]?).map (fun d => refinedDim d (c.getD j none)) else s[j]?) ∧
        (ch = true ↔ ∃ i, i < k ∧ refinableAt s c i)) := by
  induction k with
  | zero =>
    refine ⟨?_, ?_⟩
    · rintro ⟨i, hi, _⟩; omega
    · intro _
      refine ⟨s, false, by simp, by simp, ?_⟩
      simp
  | succ k ih =>
    have ih := ih (by omega)
    rw [List.range_succ, List.foldlM_append]
    by_cases hprev : ∃ i, i < k ∧ conflictAt s c i
    · have h0 := ih.1 hprev
      refine ⟨?_, ?_⟩
      · intro _; rw [h0]; rfl
      · intro hno
        exfalso; apply hno
        obtain ⟨i, hi, hc⟩ := hprev
        exact ⟨i, by omega, hc⟩
    · obtain ⟨fs, ch, hrun, hfs, hch⟩ := ih.2 hprev
      rw [hrun]
      have hklt : k < s.length := by omega
      obtain ⟨d, hsk⟩ : ∃ d, s[k]? = some d := ⟨s[k], List.getElem?_eq_getElem hklt⟩
      have hgd : s.getD k (-1) = d := by
        simp [List.getD_eq_getElem?_getD, hsk]
      have hfk : fs.getD k (-1) = d := by
        simp [List.getD_eq_getElem?_getD, hfs k, hsk]
      have hstep : (do
          let init ← some (fs, ch)
          List.foldlM (EnforceShapeOp.foldStep c) init [k]) =
          EnforceShapeOp.foldStep c (fs, ch) k := by
        simp [List.foldlM_cons]
      rw [hstep]
      have hflen : k < fs.length := by
        have := hfs k
        simp only [lt_self_iff_false, if_false, hsk] at this
        by_contra hcon
        rw [List.getElem?_eq_none (by omega)] at this
        simp at this
      -- entries below `k` and above `k` are as before when the state is kept
      have hkeep : ∀ (r : Int), r = refinedDim d (c.getD k none) →
          ∀ fs2 : List Int, (∀ j, fs2[j]? = if j = k then some r else fs[j]?) →
          ∀ j, fs2[j]? =
            if j < k + 1 then (s[j]?).map (fun d => refinedDim d (c.getD j none)) else s[j]? := by
        intro r hr fs2 h2 j
        rw [h2 j]
        by_cases hjk : j = k
        · subst hjk
          rw [if_pos rfl, if_pos (Nat.lt_succ_self j), hsk, hr]; rfl
        · rw [if_neg hjk, hfs j]
          by_cases hj : j < k
          · rw [if_pos hj, if_pos (Nat.lt_succ_of_lt hj)]
          · rw [if_neg hj, if_neg (by omega)]
      have hsame : ∀ j, fs[j]? = if j = k then some d else fs[j]? := by
        intro j
        by_cases hjk : j = k
        · subst hjk
          rw [if_pos rfl, hfs j, if_neg (lt_irrefl j), hsk]
        · rw [if_neg hjk]
      have hprevch : (∃ i, i < k + 1 ∧ refinableAt s c i) ↔
          ((∃ i, i < k ∧ refinableAt s c i) ∨ refinableAt s c k) := by
        constructor
        · rintro ⟨i, hi, hr⟩
          rcases Nat.lt_succ_iff_lt_or_eq.mp hi with h | h
          · exact Or.inl ⟨i, h, hr⟩
          · subst h; exact Or.inr hr
        · rintro (⟨i, hi, hr⟩ | hr)
          · exact ⟨i, by omega, hr⟩
          · exact ⟨k, by omega, hr⟩
      have hprevco : (∃ i, i < k + 1 ∧ conflictAt s c i) ↔ conflictAt s c k := by
        constructor
        · rintro ⟨i, hi, hc⟩
          rcases Nat.lt_succ_iff_lt_or_eq.mp hi with h | h
          · exact absurd ⟨i, h, hc⟩ hprev
          · subst h; exact hc
        · intro hc; exact ⟨k, by omega, hc⟩
      rw [hprevco]
      cases hreq : requestedSize (c.getD k none) with
      | none =>
        have hnc : ¬ conflictAt s c k := by
          rintro ⟨v, hv, _⟩; rw [hreq] at hv; simp at hv
        have hnr : ¬ refinableAt s c k := by
          rintro ⟨v, hv, _⟩; rw [hreq] at hv; simp at hv
        rw [foldStep_of_none hreq]
        refine ⟨fun h => absurd h hnc, fun _ => ⟨fs, ch, rfl, ?_, ?_⟩⟩
        · exact hkeep d (refinedDim_of_none hreq).symm fs hsame
        · rw [hch, hprevch]; simp [hnr]
      | some v =>
        by_cases h1 : d = -1
        · have hnc : ¬ conflictAt s c k := by
            rintro ⟨w, _, hne, _⟩; rw [hgd] at hne; exact hne h1
          have hr : refinableAt s c k := ⟨v, hreq, hgd.trans h1⟩
          rw [foldStep_of_unknown hreq (hfk.trans h1)]
          refine ⟨fun h => absurd h hnc, fun _ => ⟨fs.set k v, true, rfl, ?_, ?_⟩⟩
          · apply hkeep v (by rw [h1, refinedDim_of_unknown hreq])
            intro j
            rw [List.getElem?_set]
            by_cases hjk : k = j
            · subst hjk; simp [hflen]
            · have : ¬ j = k := fun h => hjk h.symm
              simp [hjk, this]
          · rw [hprevch]; simp [hr]
        · have hnr : ¬ refinableAt s c k := by
            rintro ⟨w, _, hw⟩; rw [hgd] at hw; exact h1 hw
          by_cases h2 : d = v
          · have hnc : ¬ conflictAt s c k := by
              rintro ⟨w, hw, _, hne⟩
              rw [hreq] at hw
              simp only [Option.some.injEq] at hw
              rw [hgd, ← hw] at hne
              exact hne h2
            rw [foldStep_of_agree hreq (by rw [hfk]; exact h1) (hfk.trans h2)]
            refine ⟨fun h => absurd h hnc, fun _ => ⟨fs, ch, rfl, ?_, ?_⟩⟩
            · exact hkeep d (refinedDim_of_known _ h1).symm fs hsame
            · rw [hch, hprevch]; simp [hnr]
          · have hc : conflictAt s c k :=
              ⟨v, hreq, by rw [hgd]; exact h1, by rw [hgd]; exact h2⟩
            rw [foldStep_of_conflict hreq (by rw [hfk]; exact h1) (by rw [hfk]; exact h2)]
            exact ⟨fun _ => rfl, fun h => absurd hc h⟩

theorem requestedSize_eq_some_iff (a : Option Attribute) (v : Int) :
    requestedSize a = some v ↔ a = some (.integer v) ∧ v ≠ -1 := by
  unfold requestedSize
  cases a with
  | none => simp [dynCastIntegerAttr]
  | some x =>
    cases x with
    | other k => simp [dynCastIntegerAttr]
    | integer w =>
      by_cases hw : w = -1
      · subst hw
        simp [dynCastIntegerAttr]
        intro h1; exact h1.symm
      · simp only [dynCastIntegerAttr, if_neg hw, Option.some.injEq, Attribute.integer.injEq]
        constructor
        · intro h; subst h; exact ⟨rfl, hw⟩
        · intro h; exact h.1

theorem foldLoop_eq_none {c : List (Option Attribute)} {s : List Int}
    (hlen : s.length = c.length) (h : ∃ i, i < c.length ∧ conflictAt s c i) :
    EnforceShapeOp.foldLoop c c.length s = none :=
  (foldLoop_upTo c s c.length (by omega)).1 h

theorem foldLoop_eq_some {c : List (Option Attribute)} {s : List Int}
    (hlen : s.length = c.length) (h : ¬ ∃ i, i < c.length ∧ conflictAt s c i) :
    ∃ ch, EnforceShapeOp.foldLoop c c.length s = some (List.zipWith refinedDim s c, ch) ∧
      (ch = true ↔ ∃ i, i < c.length ∧ refinableAt s c i) := by
  obtain ⟨fs, ch, hrun, hfs, hch⟩ := (foldLoop_upTo c s c.length (by omega)).2 h
  refine ⟨ch, ?_, hch⟩
  have hfs2 : fs = List.zipWith refinedDim s c := by
    apply List.ext_getElem?
    intro j
    rw [hfs j, List.getElem?_zipWith]
    by_cases hj : j < c.length
    · have hjs : j < s.length := by omega
      rw [if_pos hj, List.getElem?_eq_getElem hjs, List.getElem?_eq_getElem hj]
      simp [List.getD_eq_getElem?_getD, List.getElem?_eq_getElem hj]
    · rw [if_neg hj, List.getElem?_eq_none (by omega), List.getElem?_eq_none (by omega)]
  rw [← hfs2]
  exact hrun

theorem initialShape_eq (kind : ShapedKind) (shape : Option (List Int)) (elem : Ty) (n : Nat) :
    EnforceShapeOp.initialShape ⟨kind, shape, elem⟩ n =
      if (declaredShape shape n).length = n then some (declaredShape shape n) else none := by
  unfold EnforceShapeOp.initialShape declaredShape ShapedType.hasRank ShapedType.getShape
  cases shape with
  | none => simp
  | some s =>
    by_cases h : s.length = n
    · simp [h]
    · simp [h]

theorem fold_rank_mismatch {ir : IR} {op : EnforceShapeOp} {operands : List (Option Attribute)}
    {kind : ShapedKind} {shape : Option (List Int)} {elem : Ty}
    (ht : ir.typeOf op.result = .shaped kind shape elem)
    (hlen : (declaredShape shape (operands.drop 1).length).length ≠ (operands.drop 1).length) :
    EnforceShapeOp.fold ir op operands = some (ir, none) := by
  unfold EnforceShapeOp.fold
  simp only [ht, Ty.castShaped, initialShape_eq, if_neg hlen]

theorem fold_conflict {ir : IR} {op : EnforceShapeOp} {operands : List (Option Attribute)}
    {kind : ShapedKind} {shape : Option (List Int)} {elem : Ty}
    (ht : ir.typeOf op.result = .shaped kind shape elem)
    (hlen : (declaredShape shape (operands.drop 1).length).length = (operands.drop 1).length)
    (hc : ∃ i, i < (operands.drop 1).length ∧
      conflictAt (declaredShape shape (operands.drop 1).length) (operands.drop 1) i) :
    EnforceShapeOp.fold ir op operands = some (ir, none) := by
  unfold EnforceShapeOp.fold
  simp only [ht, Ty.castShaped, initialShape_eq, if_pos hlen, foldLoop_eq_none hlen hc]

theorem fold_refine {ir : IR} {op : EnforceShapeOp} {operands : List (Option Attribute)}
    {kind : ShapedKind} {shape : Option (List Int)} {elem : Ty}
    (ht : ir.typeOf op.result = .shaped kind shape elem)
    (hlen : (declaredShape shape (operands.drop 1).length).length = (operands.drop 1).length)
    (hc : ¬ ∃ i, i < (operands.drop 1).length ∧
      conflictAt (declaredShape shape (operands.drop 1).length) (operands.drop 1) i)
    (hr : ∃ i, i < (operands.drop 1).length ∧
      refinableAt (declaredShape shape (operands.drop 1).length) (operands.drop 1) i) :
    EnforceShapeOp.fold ir op operands =
      some (ir.setType op.result
        (RankedTensorType.get
          (List.zipWith refinedDim (declaredShape shape (operands.drop 1).length)
            (operands.drop 1)) elem),
        some op.result) := by
  obtain ⟨ch, hrun, hch⟩ := foldLoop_eq_some hlen hc
  have hch2 : ch = true := hch.2 hr
  subst hch2
  unfold EnforceShapeOp.fold
  simp only [ht, Ty.castShaped, initialShape_eq, if_pos hlen, hrun, if_true,
    ShapedType.getElementType]

theorem fold_keep {ir : IR} {op : EnforceShapeOp} {operands : List (Option Attribute)}
    {kind : ShapedKind} {shape : Option (List Int)} {elem : Ty}
    (ht : ir.typeOf op.result = .shaped kind shape elem)
    (hlen : (declaredShape shape (operands.drop 1).length).length = (operands.drop 1).length)
    (hc : ¬ ∃ i, i < (operands.drop 1).length ∧
      conflictAt (declaredShape shape (operands.drop 1).length) (operands.drop 1) i)
    (hr : ¬ ∃ i, i < (operands.drop 1).length ∧
      refinableAt (declaredShape shape (operands.drop 1).length) (operands.drop 1) i) :
    EnforceShapeOp.fold ir op operands = some (ir, none) := by
  obtain ⟨ch, hrun, hch⟩ := foldLoop_eq_some hlen hc
  have hch2 : ch = false := by
    cases ch with
    | false => rfl
    | true => exact absurd (hch.1 rfl) hr
  subst hch2
  unfold EnforceShapeOp.fold
  simp only [ht, Ty.castShaped, initialShape_eq, if_pos hlen, hrun]
  simp

theorem fold_not_shaped {ir : IR} {op : EnforceShapeOp} {operands : List (Option Attribute)}
    (ht : (ir.typeOf op.result).castShaped = none) :
    EnforceShapeOp.fold ir op operands = none := by
  unfold EnforceShapeOp.fold
  simp only [ht]

theorem conflictAt_iff (s : List Int) (cs : List (Option Attribute)) (i : Nat) :
    conflictAt s cs i ↔
      ∃ si ci, s[i]? = some si ∧ cs[i]? = some (some (Attribute.integer ci)) ∧
        si ≠ -1 ∧ ci ≠ -1 ∧ ci ≠ si := by
  unfold conflictAt
  constructor
  · rintro ⟨v, hv, h1, h2⟩
    rw [requestedSize_eq_some_iff] at hv
    obtain ⟨hv1, hv2⟩ := hv
    rw [List.getD_eq_getElem?_getD] at hv1 h1 h2
    cases hs : s[i]? with
    | none => rw [hs] at h1; simp at h1
    | some si =>
      rw [hs] at h1 h2
      simp only [Option.getD_some] at h1 h2
      cases hc : cs[i]? with
      | none => rw [hc] at hv1; simp at hv1
      | some a =>
        rw [hc] at hv1
        simp only [Option.getD_some] at hv1
        exact ⟨si, v, rfl, by rw [hv1], h1, hv2, fun h => h2 h.symm⟩
  · rintro ⟨si, ci, hs, hc, h1, h2, h3⟩
    refine ⟨ci, ?_, ?_, ?_⟩
    · rw [requestedSize_eq_some_iff, List.getD_eq_getElem?_getD, hc]
      exact ⟨rfl, h2⟩
    · rw [List.getD_eq_getElem?_getD, hs]; exact h1
    · rw [List.getD_eq_getElem?_getD, hs]; exact fun h => h3 h.symm

theorem refinableAt_iff (s : List Int) (cs : List (Option Attribute)) (i : Nat)
    (hi : i < s.length) :
    refinableAt s cs i ↔
      ∃ ci, s[i]? = some (-1) ∧ cs[i]? = some (some (Attribute.integer ci)) ∧ ci ≠ -1 := by
  unfold refinableAt
  constructor
  · rintro ⟨v, hv, h1⟩
    rw [requestedSize_eq_some_iff] at hv
    obtain ⟨hv1, hv2⟩ := hv
    rw [List.getD_eq_getElem?_getD] at hv1 h1
    rw [List.getElem?_eq_getElem hi] at h1 ⊢
    simp only [Option.getD_some] at h1
    cases hc : cs[i]? with
    | none => rw [hc] at hv1; simp at hv1
    | some a =>
      rw [hc] at hv1
      simp only [Option.getD_some] at hv1
      exact ⟨v, by rw [h1], by rw [hv1], hv2⟩
  · rintro ⟨ci, hs, hc, h2⟩
    refine ⟨ci, ?_, ?_⟩
    · rw [requestedSize_eq_some_iff, List.getD_eq_getElem?_getD, hc]
      exact ⟨rfl, h2⟩
    · rw [List.getD_eq_getElem?_getD, hs]; rfl

theorem getD_zipWith_refinedDim {s : List Int} {cs : List (Option Attribute)} {i : Nat}
    (hs : i < s.length) (hc : i < cs.length) :
    (List.zipWith refinedDim s cs).getD i (-1) = refinedDim (s.getD i (-1)) (cs.getD i none) := by
  simp [List.getD_eq_getElem?_getD, List.getElem?_zipWith, List.getElem?_eq_getElem hs,
    List.getElem?_eq_getElem hc]

theorem not_conflictAt_refined {s : List Int} {cs : List (Option Attribute)} {i : Nat}
    (hs : i < s.length) (hc : i < cs.length) (h : ¬ conflictAt s cs i) :
    ¬ conflictAt (List.zipWith refinedDim s cs) cs i := by
  rintro ⟨v, hv, h1, h2⟩
  rw [getD_zipWith_refinedDim hs hc] at h1 h2
  by_cases hd : s.getD i (-1) = -1
  · rw [hd, refinedDim_of_unknown hv] at h2
    exact h2 rfl
  · rw [refinedDim_of_known _ hd] at h2
    exact h ⟨v, hv, hd, h2⟩

theorem not_refinableAt_refined {s : List Int} {cs : List (Option Attribute)} {i : Nat}
    (hs : i < s.length) (hc : i < cs.length) :
    ¬ refinableAt (List.zipWith refinedDim s cs) cs i := by
  rintro ⟨v, hv, h1⟩
  rw [getD_zipWith_refinedDim hs hc] at h1
  by_cases hd : s.getD i (-1) = -1
  · rw [hd, refinedDim_of_unknown hv] at h1
    exact ((requestedSize_eq_some_iff _ _).mp hv).2 h1
  · rw [refinedDim_of_known _ hd] at h1
    exact hd h1

theorem typeOf_setType_self (ir : IR) (value : Value) (type : Ty) :
    (ir.setType value type).typeOf value = type := by
  simp [IR.setType]

theorem fold_twice {ir : IR} {op : EnforceShapeOp} {operands : List (Option Attribute)}
    {kind : ShapedKind} {shape : Option (List Int)} {elem : Ty}
    (ht : ir.typeOf op.result = .shaped kind shape elem) :
    ∃ ir1 r1, EnforceShapeOp.fold ir op operands = some (ir1, r1) ∧
      EnforceShapeOp.fold ir1 op operands = some (ir1, none) := by
  by_cases hlen : (declaredShape shape (operands.drop 1).length).length = (operands.drop 1).length
  · by_cases hc : ∃ i, i < (operands.drop 1).length ∧
        conflictAt (declaredShape shape (operands.drop 1).length) (operands.drop 1) i
    · exact ⟨ir, none, fold_conflict ht hlen hc, fold_conflict ht hlen hc⟩
    · by_cases hr : ∃ i, i < (operands.drop 1).length ∧
          refinableAt (declaredShape shape (operands.drop 1).length) (operands.drop 1) i
      · refine ⟨_, _, fold_refine ht hlen hc hr, ?_⟩
        have hlen2 : (declaredShape
            (some (List.zipWith refinedDim (declaredShape shape (operands.drop 1).length)
              (operands.drop 1))) (operands.drop 1).length).length = (operands.drop 1).length := by
          simp [declaredShape] at hlen ⊢
          omega
        apply fold_keep (typeOf_setType_self _ _ _) hlen2
        · rintro ⟨i, hi, hci⟩
          exact not_conflictAt_refined (by omega) hi (fun h => hc ⟨i, hi, h⟩) hci
        · rintro ⟨i, hi, hri⟩
          exact not_refinableAt_refined (by omega) hi hri
      · exact ⟨ir, none, fold_keep ht hlen hc hr, fold_keep ht hlen hc hr⟩
  · exact ⟨ir, none, fold_rank_mismatch ht hlen, fold_rank_mismatch ht hlen⟩

theorem getElem?_zipWith_refinedDim {s : List Int} {sizeAttrs : List (Option Attribute)}
    {i : Nat} {si : Int} {a : Option Attribute}
    (hs : s[i]? = some si) (ha : sizeAttrs[i]? = some a) :
    (List.zipWith refinedDim s sizeAttrs)[i]? = some (refinedDim si a) := by
  rw [List.getElem?_zipWith, hs, ha]

/-- C2: for an `EnforceShapeOp` whose result type is ranked with a shape `s`
as long as the list of size operands, or has no rank (`s` is then all `-1`),
when no dimension is contradictory and some dimension is unknown with a
constant size other than `-1`, the fold returns the result value of the op
itself, and in the graph it leaves the type read back from that result is
the ranked tensor of shape `r` over the same element type, while every other
value keeps its type and every value keeps its defining operation; `r` has
the length of `s`, `r[i]` is the constant where `s[i] = -1` and the size is a
constant other than `-1`, and `s[i]` otherwise. -/
theorem enforceShape_fold_refines (ir : IR) (op : EnforceShapeOp)
    (valueAttr : Option Attribute) (sizeAttrs : List (Option Attribute))
    (kind : ShapedKind) (shape : Option (List Int)) (elem : Ty) (s : List Int)
    (ht : ir.typeOf op.result = .shaped kind shape elem)
    (hs : (shape = some s ∧ s.length = sizeAttrs.length) ∨
      (shape = none ∧ s = List.replicate sizeAttrs.length (-1)))
    (hno : ¬ ∃ (i : Nat) (si ci : Int), s[i]? = some si ∧
      sizeAttrs[i]? = some (some (Attribute.integer ci)) ∧ si ≠ -1 ∧ ci ≠ -1 ∧ ci ≠ si)
    (hsome : ∃ (i : Nat) (ci : Int), s[i]? = some (-1) ∧
      sizeAttrs[i]? = some (some (Attribute.integer ci)) ∧ ci ≠ -1) :
    ∃ (r : List Int) (ir1 : IR),
      EnforceShapeOp.fold ir op (valueAttr :: sizeAttrs) = some (ir1, some op.result) ∧
      ir1.typeOf op.result = Ty.shaped ShapedKind.tensor (some r) elem ∧
      (∀ v : Value, v ≠ op.result → ir1.typeOf v = ir.typeOf v) ∧
      ir1.definingOp = ir.definingOp ∧
      r.length = s.length ∧
      (∀ (i : Nat) (ci : Int), s[i]? = some (-1) →
        sizeAttrs[i]? = some (some (Attribute.integer ci)) →
        ci ≠ -1 → r[i]? = some ci) ∧
      (∀ (i : Nat) (si : Int), s[i]? = some si →
        (si ≠ -1 ∨
          ¬ ∃ ci : Int, sizeAttrs[i]? = some (some (Attribute.integer ci)) ∧ ci ≠ -1) →
        r[i]? = some si) := by
  have hdrop : (valueAttr :: sizeAttrs).drop 1 = sizeAttrs := rfl
  have hdecl : declaredShape shape sizeAttrs.length = s := by
    rcases hs with ⟨h1, _⟩ | ⟨h1, h2⟩
    · rw [h1]; rfl
    · rw [h1, h2]; rfl
  have hlen : s.length = sizeAttrs.length := by
    rcases hs with ⟨_, h2⟩ | ⟨_, h2⟩
    · exact h2
    · rw [h2]; simp
  have hc : ¬ ∃ i, i < sizeAttrs.length ∧ conflictAt s sizeAttrs i := by
    rintro ⟨i, _, hi⟩
    exact hno ⟨i, (conflictAt_iff s sizeAttrs i).mp hi⟩
  have hr : ∃ i, i < sizeAttrs.length ∧ refinableAt s sizeAttrs i := by
    obtain ⟨i, ci, h1, h2, h3⟩ := hsome
    have hi : i < s.length := by
      rcases List.getElem?_eq_some_iff.mp h1 with ⟨h, _⟩
      exact h
    exact ⟨i, by omega, (refinableAt_iff s sizeAttrs i hi).mpr ⟨ci, h1, h2, h3⟩⟩
  have hfold := @fold_refine ir op (valueAttr :: sizeAttrs) kind shape elem ht
    (by rw [hdrop, hdecl]; exact hlen) (by rw [hdrop, hdecl]; exact hc)
    (by rw [hdrop, hdecl]; exact hr)
  rw [hdrop, hdecl] at hfold
  refine ⟨List.zipWith refinedDim s sizeAttrs,
    ir.setType op.result (RankedTensorType.get (List.zipWith refinedDim s sizeAttrs) elem),
    hfold, ?_, ?_, rfl, ?_, ?_, ?_⟩
  · rw [typeOf_setType_self]
    rfl
  · intro v hv
    simp only [IR.setType, if_neg hv]
  · simp [hlen]
  · intro i ci h1 h2 h3
    rw [getElem?_zipWith_refinedDim h1 h2]
    rw [refinedDim_of_unknown ((requestedSize_eq_some_iff _ _).mpr ⟨rfl, h3⟩)]
  · intro i si h1 h2
    have hi : i < sizeAttrs.length := by
      rcases List.getElem?_eq_some_iff.mp h1 with ⟨h, _⟩
      omega
    rw [getElem?_zipWith_refinedDim h1 (List.getElem?_eq_getElem hi)]
    rcases h2 with h2 | h2
    · rw [refinedDim_of_known _ h2]
    · cases hq : requestedSize sizeAttrs[i] with
      | none => rw [refinedDim_of_none hq]
      | some v =>
        exfalso; apply h2
        have := (requestedSize_eq_some_iff _ _).mp hq
        exact ⟨v, by rw [List.getElem?_eq_getElem hi, this.1], this.2⟩

/-- Witness of C2: the declared shape `[-1, -1]` folded against the sizes
`[4, 8]`; the type read back from the result after the fold is a ranked
tensor whose shape has the entries `4` and `8`, over the element type the
result had, and the tensor given to the op keeps its type. -/
theorem enforceShape_fold_refines_witness :
    sample.graph.typeOf sample.enforceShape.result =
      .shaped .tensor (some [-1, -1]) (.other 0) ∧
    ∃ (r : List Int) (ir1 : IR),
      EnforceShapeOp.fold sample.graph sample.enforceShape
          (none :: [some (.integer 4), some (.integer 8)]) =
        some (ir1, some sample.enforceShape.result) ∧
      ir1.typeOf sample.enforceShape.result =
        Ty.shaped ShapedKind.tensor (some r) (.other 0) ∧
      ir1.typeOf sample.tensorInput = sample.graph.typeOf sample.tensorInput ∧
      r.length = 2 ∧ r[0]? = some 4 ∧ r[1]? = some 8 :=
  ⟨rfl,
    match enforceShape_fold_refines sample.graph sample.enforceShape none
      [some (.integer 4), some (.integer 8)] .tensor (some [-1, -1]) (.other 0) [-1, -1]
      rfl (Or.inl ⟨rfl, rfl⟩)
      (by
        rintro ⟨i, si, ci, h1, _, h3, _⟩
        match i, h1 with
        | 0, h1 => simp at h1; exact h3 h1.symm
        | 1, h1 => simp at h1; exact h3 h1.symm
        | n + 2, h1 => simp at h1)
      ⟨0, 4, rfl, rfl, by decide⟩ with
    | ⟨r, ir1, hfold, htype, hother, _, hlen, hknown, _⟩ =>
      ⟨r, ir1, hfold, htype, hother sample.tensorInput (by decide), hlen,
        hknown 0 4 rfl rfl (by decide), hknown 1 8 rfl rfl (by decide)⟩⟩

/-- The scenario of C2 evaluated: `[-1, -1]` folded against `[4, 8]` returns
the result value of the op, and the type read back from that result in the
graph the fold leaves is the ranked tensor `[4, 8]` over the same element
type. -/
theorem enforceShape_fold_scenario :
    ∃ ir1 : IR,
      EnforceShapeOp.fold sample.graph sample.enforceShape
          [none, some (.integer 4), some (.integer 8)] =
        some (ir1, some sample.tensorResult) ∧
      ir1.typeOf sample.tensorResult =
        Ty.shaped ShapedKind.tensor (some [4, 8]) (.other 0) ∧
      ir1.typeOf sample.tensorInput =
        Ty.shaped ShapedKind.tensor (some [-1, -1]) (.other 0) :=
  ⟨sample.graph.setType sample.tensorResult (RankedTensorType.get [4, 8] (.other 0)),
    rfl, rfl, rfl⟩

/-- C3: on an `EnforceShapeOp` (its result type is a shaped type) the fold
returns, and a second fold with the same attributes on the graph the first
call left returns "unchanged" and leaves that graph, hence the result type,
as it is; this holds whether the first call refined the type or not. -/
theorem enforceShape_fold_idempotent (ir : IR) (op : EnforceShapeOp)
    (operands : List (Option Attribute))
    (kind : ShapedKind) (shape : Option (List Int)) (elem : Ty)
    (ht : ir.typeOf op.result = .shaped kind shape elem) :
    ∃ ir1 r1, EnforceShapeOp.fold ir op operands = some (ir1, r1) ∧
      EnforceShapeOp.fold ir1 op operands = some (ir1, none) :=
  fold_twice ht

/-- Witness of C3: `[-1, -1]` folded twice against `[4, 8]`. -/
theorem enforceShape_fold_idempotent_witness :
    sample.graph.typeOf sample.enforceShape.result =
      .shaped .tensor (some [-1, -1]) (.other 0) ∧
    ∃ ir1 r1,
      EnforceShapeOp.fold sample.graph sample.enforceShape
        [none, some (.integer 4), some (.integer 8)] = some (ir1, r1) ∧
      EnforceShapeOp.fold ir1 sample.enforceShape
        [none, some (.integer 4), some (.integer 8)] = some (ir1, none) :=
  ⟨rfl,
    enforceShape_fold_idempotent sample.graph sample.enforceShape
      [none, some (.integer 4), some (.integer 8)] .tensor (some [-1, -1]) (.other 0) rfl⟩

/-- C4: for an `EnforceShapeOp` whose result type is ranked with shape `s`,
when the rank differs from the number of size operands, or some dimension has
a declared size other than `-1` and a constant size other than `-1` that
differ, the fold returns "unchanged" and the graph, hence the result type, is
left as it is, whatever the other dimensions are. -/
theorem enforceShape_fold_contradiction (ir : IR) (op : EnforceShapeOp)
    (valueAttr : Option Attribute) (sizeAttrs : List (Option Attribute))
    (kind : ShapedKind) (s : List Int) (elem : Ty)
    (ht : ir.typeOf op.result = .shaped kind (some s) elem)
    (h : s.length ≠ sizeAttrs.length ∨
      ∃ (i : Nat) (si ci : Int), s[i]? = some si ∧
        sizeAttrs[i]? = some (some (Attribute.integer ci)) ∧ si ≠ -1 ∧ ci ≠ -1 ∧ ci ≠ si) :
    EnforceShapeOp.fold ir op (valueAttr :: sizeAttrs) = some (ir, none) := by
  have hdrop : (valueAttr :: sizeAttrs).drop 1 = sizeAttrs := rfl
  have hdecl : declaredShape (some s) sizeAttrs.length = s := rfl
  by_cases hlen : s.length = sizeAttrs.length
  · rcases h with h | ⟨i, si, ci, h1, h2, h3⟩
    · exact absurd hlen h
    · have hi : i < sizeAttrs.length := by
        rcases List.getElem?_eq_some_iff.mp h2 with ⟨h, _⟩
        exact h
      apply fold_conflict ht
      · rw [hdrop, hdecl]; exact hlen
      · rw [hdrop, hdecl]
        exact ⟨i, hi, (conflictAt_iff s sizeAttrs i).mpr ⟨si, ci, h1, h2, h3⟩⟩
  · apply fold_rank_mismatch ht
    rw [hdrop, hdecl]; exact hlen

/-- Witness of C4: the declared shape `[-1, 3]` folded against the sizes
`[4, 5]`; dimension 1 is contradictory while dimension 0 could have been
refined. -/
theorem enforceShape_fold_contradiction_witness :
    sample.graph.typeOf sample.enforceShapePartly.result =
      .shaped .tensor (some [-1, 3]) (.other 0) ∧
    EnforceShapeOp.fold sample.graph sample.enforceShapePartly
      (none :: [some (.integer 4), some (.integer 5)]) = some (sample.graph, none) :=
  ⟨rfl,
    enforceShape_fold_contradiction sample.graph sample.enforceShapePartly none
      [some (.integer 4), some (.integer 5)] .tensor [-1, 3] (.other 0) rfl
      (Or.inr ⟨1, 3, 5, rfl, rfl, by decide, by decide, by decide⟩)⟩

theorem eqKey_iff (storage : detail.PyTypeStorage) (key : String) :
    storage.eqKey key = true ↔ storage = ⟨key⟩ := by
  cases storage with
  | mk name =>
    simp only [detail.PyTypeStorage.eqKey, beq_iff_eq, detail.PyTypeStorage.mk.injEq]
    exact eq_comm

theorem baseGet_storages (context : MLIRContext) (key : String) :
    ∃ extra, (PyType.baseGet context key).1.storages = context.storages ++ extra := by
  unfold PyType.baseGet
  simp only []
  split
  · exact ⟨[], by simp⟩
  · exact ⟨[detail.PyTypeStorage.construct key], rfl⟩

theorem baseGetAll_storages (names : List String) :
    ∀ context : MLIRContext,
      ∃ extra, (PyType.baseGetAll context names).storages = context.storages ++ extra := by
  induction names with
  | nil => intro context; exact ⟨[], by simp [PyType.baseGetAll]⟩
  | cons name names ih =>
    intro context
    obtain ⟨e1, h1⟩ := baseGet_storages context name
    obtain ⟨e2, h2⟩ := ih (PyType.baseGet context name).1
    refine ⟨e1 ++ e2, ?_⟩
    have : PyType.baseGetAll context (name :: names) =
        PyType.baseGetAll (PyType.baseGet context name).1 names := rfl
    rw [this, h2, h1, List.append_assoc]

theorem baseGet_firstAt (context : MLIRContext) (key : String) :
    FirstAt (PyType.baseGet context key).1.storages key (PyType.baseGet context key).2.impl := by
  unfold PyType.baseGet
  simp only []
  split
  · rename_i hlt
    refine ⟨?_, ?_⟩
    · simp only []
      rw [List.getElem?_eq_getElem hlt]
      have := @List.findIdx_getElem _ (fun storage => storage.eqKey key) context.storages hlt
      rw [(eqKey_iff _ _).mp this]
    · intro j hj
      simp only [] at hj ⊢
      have hjl : j < context.storages.length := by omega
      have := List.not_of_lt_findIdx hj
      rw [List.getElem?_eq_getElem hjl]
      intro hc
      simp only [Option.some.injEq] at hc
      have h2 := (eqKey_iff _ _).mpr hc
      simp only [h2] at this
      cases this
  · rename_i hge
    have heq : List.findIdx (fun storage => detail.PyTypeStorage.eqKey storage key)
        context.storages = context.storages.length :=
      Nat.le_antisymm (List.findIdx_le_length _) (Nat.le_of_not_lt hge)
    rw [List.findIdx_eq_length] at heq
    refine ⟨?_, ?_⟩
    · simp [detail.PyTypeStorage.construct]
    · intro j hj
      simp only [] at hj ⊢
      rw [List.getElem?_append_left hj, List.getElem?_eq_getElem hj]
      intro hc
      simp only [Option.some.injEq] at hc
      have h2 := (eqKey_iff _ _).mpr hc
      have h3 := heq _ (List.getElem_mem hj)
      rw [h2] at h3
      cases h3

theorem baseGet_of_firstAt {l : List detail.PyTypeStorage} {key : String} {i : Nat}
    (h : FirstAt l key i) : PyType.baseGet ⟨l⟩ key = (⟨l⟩, ⟨i⟩) := by
  obtain ⟨h1, h2⟩ := h
  have hi : i < l.length := by
    by_contra hcon
    rw [List.getElem?_eq_none (by omega)] at h1
    cases h1
  have hidx : List.findIdx (fun storage => detail.PyTypeStorage.eqKey storage key) l = i := by
    rw [List.findIdx_eq hi]
    refine ⟨?_, ?_⟩
    · rw [List.getElem?_eq_getElem hi] at h1
      simp only [Option.some.injEq] at h1
      exact (eqKey_iff _ _).mpr h1
    · intro j hj
      have hjl : j < l.length := by omega
      have := h2 j hj
      rw [List.getElem?_eq_getElem hjl] at this
      cases hk : detail.PyTypeStorage.eqKey l[j] key with
      | false => rfl
      | true =>
        exfalso; apply this
        rw [(eqKey_iff _ _).mp hk]
  unfold PyType.baseGet
  simp only [hidx, if_pos hi]

theorem firstAt_append {l : List detail.PyTypeStorage} {key : String} {i : Nat}
    (h : FirstAt l key i) (extra : List detail.PyTypeStorage) : FirstAt (l ++ extra) key i := by
  obtain ⟨h1, h2⟩ := h
  have hi : i < l.length := by
    by_contra hcon
    rw [List.getElem?_eq_none (by omega)] at h1
    cases h1
  refine ⟨?_, ?_⟩
  · rw [List.getElem?_append_left hi]; exact h1
  · intro j hj
    rw [List.getElem?_append_left (by omega)]
    exact h2 j hj

theorem baseGet_later_eq_iff (context : MLIRContext) (a b : String) (between : List String) :
    (PyType.baseGet (PyType.baseGetAll (PyType.baseGet context a).1 between) b).2 =
        (PyType.baseGet context a).2 ↔ a = b := by
  have hfa := baseGet_firstAt context a
  obtain ⟨extra, hext⟩ := baseGetAll_storages between (PyType.baseGet context a).1
  have hfa2 := firstAt_append hfa extra
  rw [← hext] at hfa2
  constructor
  · intro h
    have hfb := baseGet_firstAt (PyType.baseGetAll (PyType.baseGet context a).1 between) b
    obtain ⟨e2, he2⟩ := baseGet_storages (PyType.baseGetAll (PyType.baseGet context a).1 between) b
    have hfa3 := firstAt_append hfa2 e2
    rw [← he2] at hfa3
    rw [h] at hfb
    have := hfb.1.symm.trans hfa3.1
    simp only [Option.some.injEq, detail.PyTypeStorage.mk.injEq] at this
    exact this.symm
  · intro h
    subst h
    have := baseGet_of_firstAt hfa2
    rw [this]

theorem getName_baseGet (context : MLIRContext) (key : String) :
    PyType.getName (PyType.baseGet context key).1 (PyType.baseGet context key).2 = some key := by
  have h := (baseGet_firstAt context key).1
  unfold PyType.getName
  rw [List.get?_eq_getElem?, h]
  rfl

/-- C10: `PyType` equality is structural on the name. A handle built from
`b`, at any later point of the life of the context, equals the handle built
from `a` exactly when `a = b`, and the name read back through a handle is the
name it was built from. Consequently a handle from `PyType::get` (which
needs a name that is not empty) never equals the handle of
`PyType::getUndefined`, in either order of creation, and the handle of
`PyType::getNone` is the handle of `PyType::get` on `"none"`, in either
order of creation. -/
theorem pyType_equality_structural :
    (∀ (context : MLIRContext) (a b : String) (between : List String),
      (PyType.baseGet (PyType.baseGetAll (PyType.baseGet context a).1 between) b).2 =
          (PyType.baseGet context a).2 ↔ a = b) ∧
    (∀ (context : MLIRContext) (key : String),
      PyType.getName (PyType.baseGet context key).1 (PyType.baseGet context key).2 =
        some key) ∧
    (∀ (context : MLIRContext) (name : String) (between : List String)
        (context1 : MLIRContext) (type : PyType),
      PyType.get context name = some (context1, type) →
        (PyType.getUndefined (PyType.baseGetAll context1 between)).2 ≠ type) ∧
    (∀ (context : MLIRContext) (name : String) (between : List String)
        (context1 : MLIRContext) (type : PyType),
      PyType.get (PyType.baseGetAll (PyType.getUndefined context).1 between) name =
          some (context1, type) →
        type ≠ (PyType.getUndefined context).2) ∧
    (∀ (context : MLIRContext) (between : List String)
        (context1 : MLIRContext) (type : PyType),
      PyType.get context "none" = some (context1, type) →
        (PyType.getNone (PyType.baseGetAll context1 between)).2 = type) ∧
    (∀ (context : MLIRContext) (between : List String),
      ∃ context1,
        PyType.get (PyType.baseGetAll (PyType.getNone context).1 between) "none" =
          some (context1, (PyType.getNone context).2)) := by
  refine ⟨baseGet_later_eq_iff, getName_baseGet, ?_, ?_, ?_, ?_⟩
  · intro context name between context1 type h
    unfold PyType.get at h
    split at h
    · cases h
    · rename_i hne
      simp only [Option.some.injEq] at h
      have h1 : context1 = (PyType.baseGet context name).1 := by rw [h]
      have h2 : type = (PyType.baseGet context name).2 := by rw [h]
      subst h1; subst h2
      intro heq
      exact hne ((baseGet_later_eq_iff context name "" between).mp heq)
  · intro context name between context1 type h
    unfold PyType.get at h
    split at h
    · cases h
    · rename_i hne
      simp only [Option.some.injEq] at h
      have h2 : type = (PyType.baseGet
          (PyType.baseGetAll (PyType.getUndefined context).1 between) name).2 := by rw [h]
      subst h2
      intro heq
      exact hne ((baseGet_later_eq_iff context "" name between).mp heq).symm
  · intro context between context1 type h
    unfold PyType.get at h
    rw [if_neg (by decide)] at h
    simp only [Option.some.injEq] at h
    have h1 : context1 = (PyType.baseGet context "none").1 := by rw [h]
    have h2 : type = (PyType.baseGet context "none").2 := by rw [h]
    subst h1; subst h2
    exact (baseGet_later_eq_iff context "none" "none" between).mpr rfl
  · intro context between
    refine ⟨(PyType.baseGet
      (PyType.baseGetAll (PyType.getNone context).1 between) "none").1, ?_⟩
    unfold PyType.get
    rw [if_neg (by decide)]
    have := (baseGet_later_eq_iff context "none" "none" between).mpr rfl
    unfold PyType.getNone
    rw [← this]

/-- Witness of C10: in a fresh context `PyType::get` on `"int64"` gives the
handle `0`; after a later `getNone`, `getUndefined` gives another handle, and
`PyType::get` on `"none"` followed by `getNone` gives one handle. -/
theorem pyType_equality_structural_witness :
    PyType.get ⟨[]⟩ "int64" = some (⟨[⟨"int64"⟩]⟩, ⟨0⟩) ∧
    (PyType.getUndefined (PyType.baseGetAll ⟨[⟨"int64"⟩]⟩ ["none"])).2 ≠ ⟨0⟩ ∧
    (PyType.get (PyType.baseGetAll (PyType.getUndefined ⟨[]⟩).1 []) "int64" =
        some (⟨[⟨""⟩, ⟨"int64"⟩]⟩, ⟨1⟩) ∧
      (⟨1⟩ : PyType) ≠ (PyType.getUndefined ⟨[]⟩).2) ∧
    (PyType.get ⟨[⟨"int64"⟩]⟩ "none" = some (⟨[⟨"int64"⟩, ⟨"none"⟩]⟩, ⟨1⟩) ∧
      (PyType.getNone (PyType.baseGetAll ⟨[⟨"int64"⟩, ⟨"none"⟩]⟩ [""])).2 = ⟨1⟩) :=
  ⟨by decide,
    pyType_equality_structural.2.2.1 ⟨[]⟩ "int64" ["none"] ⟨[⟨"int64"⟩]⟩ ⟨0⟩ (by decide),
    ⟨by decide,
      pyType_equality_structural.2.2.2.1 ⟨[]⟩ "int64" [] ⟨[⟨""⟩, ⟨"int64"⟩]⟩ ⟨1⟩
        (by decide)⟩,
    ⟨by decide,
      pyType_equality_structural.2.2.2.2.1 ⟨[⟨"int64"⟩]⟩ [""]
        ⟨[⟨"int64"⟩, ⟨"none"⟩]⟩ ⟨1⟩ (by decide)⟩⟩

end plier

namespace imex
open mlir

theorem convertStep_eq (ir : IR) (operandMapping : OneToNTypeMapping)
    (acc : List (List Value)) (entry : Nat × Value) :
    SgXeTileToXeGPUConversion.convertStep ir operandMapping acc entry =
      match SgXeTileToXeGPUConversion.operandRange ir operandMapping entry with
      | some range => .ok (acc ++ [range])
      | none =>
        .error ("[SgXeTileToXeGPUConversion::matchAndRewrite] Unexpected that "
          ++ "cannot figure out the remapped input value.") := by
  unfold SgXeTileToXeGPUConversion.convertStep SgXeTileToXeGPUConversion.operandRange
  by_cases h : (operandMapping.getConvertedTypes entry.1).length = 1
  · simp [h]
  · simp only [h, if_false]
    cases dynCastUnrealizedConversionCastOp (ir.definingOp entry.2) <;> rfl

theorem convertLoop_ok_iff (ir : IR) (operandMapping : OneToNTypeMapping) :
    ∀ (l : List Value) (n : Nat) (acc res : List (List Value)),
      (List.enumFrom n l).foldlM
          (SgXeTileToXeGPUConversion.convertStep ir operandMapping) acc = .ok res ↔
        ∃ rs, res = acc ++ rs ∧
          List.Forall₂
            (fun entry range =>
              SgXeTileToXeGPUConversion.operandRange ir operandMapping entry = some range)
            (List.enumFrom n l) rs := by
  intro l
  induction l with
  | nil =>
    intro n acc res
    simp only [List.enumFrom_nil, List.foldlM_nil, List.forall₂_nil_left_iff]
    constructor
    · intro h
      have : acc = res := by
        injection h
      exact ⟨[], by simp [this], rfl⟩
    · rintro ⟨rs, h1, h2⟩
      subst h2
      simp at h1
      rw [h1]; rfl
  | cons v l ih =>
    intro n acc res
    rw [List.enumFrom_cons, List.foldlM_cons, convertStep_eq]
    cases hr : SgXeTileToXeGPUConversion.operandRange ir operandMapping (n, v) with
    | none =>
      constructor
      · intro h
        simp only [] at h
        cases h
      · rintro ⟨rs, _, h2⟩
        cases h2 with
        | cons h3 _ => rw [hr] at h3; cases h3
    | some range =>
      have hb : (do
          let init ← (Except.ok (acc ++ [range]) : Except String (List (List Value)))
          List.foldlM (SgXeTileToXeGPUConversion.convertStep ir operandMapping) init
            (List.enumFrom (n + 1) l)) =
          List.foldlM (SgXeTileToXeGPUConversion.convertStep ir operandMapping)
            (acc ++ [range]) (List.enumFrom (n + 1) l) := rfl
      simp only []
      rw [hb, ih (n + 1) (acc ++ [range]) res]
      constructor
      · rintro ⟨rs, h1, h2⟩
        exact ⟨range :: rs, by simp [h1], List.Forall₂.cons hr h2⟩
      · rintro ⟨rs, h1, h2⟩
        cases h2 with
        | cons h3 h4 =>
          rename_i r rs2
          rw [hr] at h3
          simp only [Option.some.injEq] at h3
          subst h3
          exact ⟨rs2, by simp [h1], h4⟩

theorem forall₂_getElem? {α β : Type} {R : α → β → Prop} {l : List α} {rs : List β}
    (h : List.Forall₂ R l rs) :
    ∀ (i : Nat) (a : α), l[i]? = some a → ∃ r, rs[i]? = some r ∧ R a r := by
  induction h with
  | nil => intro i a ha; simp at ha
  | cons hR _ ih =>
    intro i a ha
    cases i with
    | zero =>
      simp only [List.getElem?_cons_zero, Option.some.injEq] at ha
      subst ha
      exact ⟨_, by simp, hR⟩
    | succ i =>
      simp only [List.getElem?_cons_succ] at ha ⊢
      exact ih i a ha

theorem exists_forall₂_of_forall_some {α β : Type} {f : α → Option β} :
    ∀ (l : List α), (∀ a, a ∈ l → ∃ b, f a = some b) →
      ∃ rs, List.Forall₂ (fun a b => f a = some b) l rs := by
  intro l
  induction l with
  | nil => intro _; exact ⟨[], List.Forall₂.nil⟩
  | cons a l ih =>
    intro h
    obtain ⟨b, hb⟩ := h a (List.mem_cons_self a l)
    obtain ⟨rs, hrs⟩ := ih (fun x hx => h x (List.mem_cons_of_mem a hx))
    exact ⟨b :: rs, List.Forall₂.cons hb hrs⟩

theorem matchAndRewrite_eq_userRewrite_iff (ir : IR) (env : PatternEnv) (op : Operation)
    (cv : List (List Value)) (res : LogicalResult) :
    SgXeTileToXeGPUConversion.matchAndRewrite ir env op = .userRewrite cv res ↔
      ∃ remapped operandMapping,
        env.getRemappedValues op.operands = some remapped ∧
        env.computeTypeMapping (op.operands.map ir.typeOf) = some operandMapping ∧
        List.Forall₂
          (fun entry range =>
            SgXeTileToXeGPUConversion.operandRange ir operandMapping entry = some range)
          remapped.enum cv ∧
        res = env.userMatchAndRewrite op cv := by
  unfold SgXeTileToXeGPUConversion.matchAndRewrite
  cases hrem : env.getRemappedValues op.operands with
  | none => simp
  | some remapped =>
    simp only []
    cases hmap : env.computeTypeMapping (op.operands.map ir.typeOf) with
    | none => simp
    | some operandMapping =>
      simp only []
      cases hloop : remapped.enum.foldlM
          (SgXeTileToXeGPUConversion.convertStep ir operandMapping) [] with
      | error msg =>
        simp only []
        constructor
        · intro h; cases h
        · rintro ⟨r2, m2, h1, h2, h3, _⟩
          simp only [Option.some.injEq] at h1 h2
          subst h1; subst h2
          have := (convertLoop_ok_iff ir operandMapping remapped 0 [] cv).mpr
            ⟨cv, by simp, h3⟩
          rw [List.enum] at hloop
          rw [hloop] at this
          cases this
      | ok convertedValues =>
        simp only []
        have hok := (convertLoop_ok_iff ir operandMapping remapped 0 [] convertedValues).mp hloop
        obtain ⟨rs, hrs1, hrs2⟩ := hok
        simp only [List.nil_append] at hrs1
        subst hrs1
        constructor
        · intro h
          injection h with h1 h2
          subst h1
          exact ⟨remapped, operandMapping, rfl, rfl, hrs2, h2.symm⟩
        · rintro ⟨r2, m2, h1, h2, h3, h4⟩
          simp only [Option.some.injEq] at h1 h2
          subst h1; subst h2
          have := (convertLoop_ok_iff ir operandMapping remapped 0 [] cv).mpr
            ⟨cv, by simp, h3⟩
          rw [List.enum] at hloop
          rw [hloop] at this
          injection this with this
          subst this
          rw [h4]

theorem matchAndRewrite_diagnostic_or_userRewrite (ir : IR) (env : PatternEnv) (op : Operation) :
    (∃ msg, SgXeTileToXeGPUConversion.matchAndRewrite ir env op = .diagnostic msg) ∨
    (∃ cv res, SgXeTileToXeGPUConversion.matchAndRewrite ir env op = .userRewrite cv res) := by
  cases h : SgXeTileToXeGPUConversion.matchAndRewrite ir env op with
  | diagnostic msg => exact Or.inl ⟨msg, rfl⟩
  | userRewrite cv res => exact Or.inr ⟨cv, res, rfl⟩

theorem matchAndRewrite_range (ir : IR) (env : PatternEnv) (op : Operation)
    (cv : List (List Value)) (res : LogicalResult)
    (remapped : List Value) (operandMapping : OneToNTypeMapping)
    (hrun : SgXeTileToXeGPUConversion.matchAndRewrite ir env op = .userRewrite cv res)
    (hrem : env.getRemappedValues op.operands = some remapped)
    (hmap : env.computeTypeMapping (op.operands.map ir.typeOf) = some operandMapping)
    (idx : Nat) (value : Value) (hval : remapped[idx]? = some value) :
    ∃ range, cv[idx]? = some range ∧
      SgXeTileToXeGPUConversion.operandRange ir operandMapping (idx, value) = some range := by
  obtain ⟨r2, m2, h1, h2, h3, _⟩ :=
    (matchAndRewrite_eq_userRewrite_iff ir env op cv res).mp hrun
  rw [hrem] at h1
  rw [hmap] at h2
  simp only [Option.some.injEq] at h1 h2
  subst h1; subst h2
  have hen : remapped.enum[idx]? = some (idx, value) := by
    rw [List.getElem?_enum, hval]; rfl
  exact forall₂_getElem? h3 idx (idx, value) hen

/-- C7: when the entry point reaches the user-level rewrite, the value range
of the adaptor for an operand whose type converts to exactly one type is the
single remapped value itself, whatever operation defines that value. -/
theorem single_type_operand_passed_unchanged (ir : IR) (env : PatternEnv) (op : Operation)
    (convertedValues : List (List Value)) (res : LogicalResult)
    (remapped : List Value) (operandMapping : OneToNTypeMapping)
    (hrun : SgXeTileToXeGPUConversion.matchAndRewrite ir env op =
      .userRewrite convertedValues res)
    (hrem : env.getRemappedValues op.operands = some remapped)
    (hmap : env.computeTypeMapping (op.operands.map ir.typeOf) = some operandMapping)
    (idx : Nat) (value : Value) (hval : remapped[idx]? = some value)
    (hone : (operandMapping.getConvertedTypes idx).length = 1) :
    convertedValues[idx]? = some [value] := by
  obtain ⟨range, h1, h2⟩ :=
    matchAndRewrite_range ir env op convertedValues res remapped operandMapping
      hrun hrem hmap idx value hval
  unfold SgXeTileToXeGPUConversion.operandRange at h2
  rw [if_pos hone] at h2
  rw [h1, ← h2]

/-- Witness of C7: operand 0 of the sample converts to one type and its
remapped value is defined by a cast; the adaptor holds that remapped value,
not the input of the cast. -/
theorem single_type_operand_passed_unchanged_witness :
    SgXeTileToXeGPUConversion.matchAndRewrite sample.graph sample.env sample.sourceOp =
      .userRewrite [[sample.remappedPlain], [sample.fragment0, sample.fragment1]]
        .success ∧
    sample.graph.definingOp sample.remappedPlain = some sample.plainCast ∧
    [[sample.remappedPlain], [sample.fragment0, sample.fragment1]][0]? =
      some [sample.remappedPlain] :=
  ⟨by decide, by decide,
    single_type_operand_passed_unchanged sample.graph sample.env sample.sourceOp
      [[sample.remappedPlain], [sample.fragment0, sample.fragment1]] .success
      [sample.remappedPlain, sample.remappedTile]
      (sample.operandMapping (sample.sourceOp.operands.map sample.graph.typeOf))
      (by decide) rfl rfl 0 sample.remappedPlain rfl (by decide)⟩

/-- C8: when the entry point reaches the user-level rewrite, the value range
of the adaptor for an operand whose type converts to more than one type and
whose remapped value is the result of an unrealized-conversion-cast is the
list of inputs of that cast, in their order. -/
theorem multi_type_operand_reads_through_bridge (ir : IR) (env : PatternEnv)
    (op : Operation) (convertedValues : List (List Value)) (res : LogicalResult)
    (remapped : List Value) (operandMapping : OneToNTypeMapping)
    (hrun : SgXeTileToXeGPUConversion.matchAndRewrite ir env op =
      .userRewrite convertedValues res)
    (hrem : env.getRemappedValues op.operands = some remapped)
    (hmap : env.computeTypeMapping (op.operands.map ir.typeOf) = some operandMapping)
    (idx : Nat) (value : Value) (hval : remapped[idx]? = some value)
    (hmany : 1 < (operandMapping.getConvertedTypes idx).length)
    (castOperation : Operation)
    (hdef : ir.definingOp value = some castOperation)
    (hname : castOperation.name = "builtin.unrealized_conversion_cast") :
    convertedValues[idx]? = some castOperation.operands := by
  obtain ⟨range, h1, h2⟩ :=
    matchAndRewrite_range ir env op convertedValues res remapped operandMapping
      hrun hrem hmap idx value hval
  unfold SgXeTileToXeGPUConversion.operandRange at h2
  rw [if_neg (show ¬ (operandMapping.getConvertedTypes idx).length = 1 by omega)] at h2
  have hcast : dynCastUnrealizedConversionCastOp (ir.definingOp value) =
      some ⟨castOperation⟩ := by
    rw [hdef]
    unfold dynCastUnrealizedConversionCastOp
    have : castOperation.name = UnrealizedConversionCastOp.getOperationName := hname
    simp only [this, if_true]
  simp only [hcast, Option.map_some', Option.some.injEq] at h2
  rw [h1, ← h2]
  rfl

/-- Witness of C8: operand 1 of the sample converts to two types and its
remapped value is defined by a bridge over two fragments. -/
theorem multi_type_operand_reads_through_bridge_witness :
    SgXeTileToXeGPUConversion.matchAndRewrite sample.graph sample.env sample.sourceOp =
      .userRewrite [[sample.remappedPlain], [sample.fragment0, sample.fragment1]]
        .success ∧
    [[sample.remappedPlain], [sample.fragment0, sample.fragment1]][1]? =
      some sample.bridge.operands :=
  ⟨by decide,
    multi_type_operand_reads_through_bridge sample.graph sample.env sample.sourceOp
      [[sample.remappedPlain], [sample.fragment0, sample.fragment1]] .success
      [sample.remappedPlain, sample.remappedTile]
      (sample.operandMapping (sample.sourceOp.operands.map sample.graph.typeOf))
      (by decide) rfl rfl 1 sample.remappedTile rfl (by decide) sample.bridge
      (by decide) (by decide)⟩

/-- C9: the entry point calls the user-level rewrite exactly when
`getRemappedValues` succeeds, `computeTypeMapping` succeeds and every
remapped value whose operand has a number of converted types other than one
is defined by an unrealized-conversion-cast. It then returns the result of
the user-level rewrite on the adaptor it built. In every other case it
returns a diagnostic, which is `failure`, and no adaptor is built. -/
theorem user_rewrite_reached_iff (ir : IR) (env : PatternEnv) (op : Operation) :
    ((∃ convertedValues res,
        SgXeTileToXeGPUConversion.matchAndRewrite ir env op =
          .userRewrite convertedValues res) ↔
      ∃ remapped operandMapping,
        env.getRemappedValues op.operands = some remapped ∧
        env.computeTypeMapping (op.operands.map ir.typeOf) = some operandMapping ∧
        ∀ (idx : Nat) (value : Value), remapped[idx]? = some value →
          (operandMapping.getConvertedTypes idx).length ≠ 1 →
          ∃ castOperation, ir.definingOp value = some castOperation ∧
            castOperation.name = "builtin.unrealized_conversion_cast") ∧
    (∀ convertedValues res,
      SgXeTileToXeGPUConversion.matchAndRewrite ir env op =
          .userRewrite convertedValues res →
        res = env.userMatchAndRewrite op convertedValues ∧
        (SgXeTileToXeGPUConversion.matchAndRewrite ir env op).result = res) ∧
    ((¬ ∃ convertedValues res,
        SgXeTileToXeGPUConversion.matchAndRewrite ir env op =
          .userRewrite convertedValues res) →
      (∃ message,
        SgXeTileToXeGPUConversion.matchAndRewrite ir env op = .diagnostic message) ∧
      (SgXeTileToXeGPUConversion.matchAndRewrite ir env op).result = .failure) := by
  refine ⟨⟨?_, ?_⟩, ?_, ?_⟩
  · rintro ⟨cv, res, hrun⟩
    obtain ⟨remapped, operandMapping, h1, h2, h3, _⟩ :=
      (matchAndRewrite_eq_userRewrite_iff ir env op cv res).mp hrun
    refine ⟨remapped, operandMapping, h1, h2, ?_⟩
    intro idx value hval hne
    obtain ⟨range, _, hr⟩ :=
      matchAndRewrite_range ir env op cv res remapped operandMapping hrun h1 h2 idx value hval
    unfold SgXeTileToXeGPUConversion.operandRange at hr
    rw [if_neg hne] at hr
    cases hd : ir.definingOp value with
    | none => rw [hd] at hr; simp [dynCastUnrealizedConversionCastOp] at hr
    | some castOperation =>
      rw [hd] at hr
      by_cases hn : castOperation.name = UnrealizedConversionCastOp.getOperationName
      · exact ⟨castOperation, rfl, hn⟩
      · simp [dynCastUnrealizedConversionCastOp, hn] at hr
  · rintro ⟨remapped, operandMapping, h1, h2, h3⟩
    have hall : ∀ entry, entry ∈ remapped.enum →
        ∃ range, SgXeTileToXeGPUConversion.operandRange ir operandMapping entry =
          some range := by
      rintro ⟨idx, value⟩ hmem
      have hval : remapped[idx]? = some value := List.mk_mem_enum_iff_getElem?.mp hmem
      unfold SgXeTileToXeGPUConversion.operandRange
      by_cases hone : (operandMapping.getConvertedTypes idx).length = 1
      · exact ⟨[value], by simp only [hone, if_true]⟩
      · obtain ⟨castOperation, hd, hn⟩ := h3 idx value hval hone
        have hn2 : castOperation.name = UnrealizedConversionCastOp.getOperationName := hn
        refine ⟨castOperation.operands, ?_⟩
        simp only [hone, if_false, hd, dynCastUnrealizedConversionCastOp, hn2, if_true,
          Option.map_some']
        rfl
    obtain ⟨cv, hcv⟩ := exists_forall₂_of_forall_some remapped.enum hall
    exact ⟨cv, env.userMatchAndRewrite op cv,
      (matchAndRewrite_eq_userRewrite_iff ir env op cv _).mpr
        ⟨remapped, operandMapping, h1, h2, hcv, rfl⟩⟩
  · intro cv res hrun
    obtain ⟨_, _, _, _, _, h4⟩ :=
      (matchAndRewrite_eq_userRewrite_iff ir env op cv res).mp hrun
    refine ⟨h4, ?_⟩
    rw [hrun]; rfl
  · intro hnot
    rcases matchAndRewrite_diagnostic_or_userRewrite ir env op with ⟨msg, h⟩ | h
    · exact ⟨⟨msg, h⟩, by rw [h]; rfl⟩
    · exact absurd h hnot

/-- Witness of C9: with the sample collaborators the user-level rewrite is
reached; when the operands are left as they are, the operand whose type
converts to two types is not defined by a bridge and the entry point returns
a diagnostic. -/
theorem user_rewrite_reached_iff_witness :
    (SgXeTileToXeGPUConversion.matchAndRewrite sample.graph sample.env sample.sourceOp =
        .userRewrite [[sample.remappedPlain], [sample.fragment0, sample.fragment1]]
          .success ∧
      (LogicalResult.success = sample.env.userMatchAndRewrite sample.sourceOp
          [[sample.remappedPlain], [sample.fragment0, sample.fragment1]] ∧
        (SgXeTileToXeGPUConversion.matchAndRewrite sample.graph sample.env
          sample.sourceOp).result = .success)) ∧
    ((∃ message,
        SgXeTileToXeGPUConversion.matchAndRewrite sample.graph sample.envIdentity
          sample.sourceOp = .diagnostic message) ∧
      (SgXeTileToXeGPUConversion.matchAndRewrite sample.graph sample.envIdentity
        sample.sourceOp).result = .failure) :=
  ⟨⟨by decide,
      (user_rewrite_reached_iff sample.graph sample.env sample.sourceOp).2.1
        [[sample.remappedPlain], [sample.fragment0, sample.fragment1]] .success
        (by decide)⟩,
    (user_rewrite_reached_iff sample.graph sample.envIdentity sample.sourceOp).2.2
      (by
        rintro ⟨cv, res, h⟩
        have hd : SgXeTileToXeGPUConversion.matchAndRewrite sample.graph
            sample.envIdentity sample.sourceOp =
            .diagnostic ("[SgXeTileToXeGPUConversion::matchAndRewrite] Unexpected that "
              ++ "cannot figure out the remapped input value.") := by decide
        rw [hd] at h
        cases h)⟩

end imex

namespace imex
open mlir

/-- C11: `XeGPUOneToNPatterRewriter::eraseOp` forwards to the wrapped
rewriter, and with it removes an operation exactly when the operation has no
remaining use; on an operation that still has uses the call is an error and
nothing is removed. -/
theorem eraseOp_only_without_uses (self : XeGPUOneToNPatterRewriter) (op : Operation) :
    (∀ after, self.eraseOp op = .ok after ↔
      self.rewriter.remainingUses op = [] ∧
      after = ⟨{ self.rewriter with
        operations := self.rewriter.operations.erase op }⟩) ∧
    (self.rewriter.remainingUses op ≠ [] →
      ∃ message, self.eraseOp op = .error message) ∧
    self.eraseOp op =
      (self.rewriter.eraseOp op).map (fun rewriter => ⟨rewriter⟩) := by
  unfold XeGPUOneToNPatterRewriter.eraseOp ConversionPatternRewriter.eraseOp
  by_cases h : self.rewriter.remainingUses op = []
  · simp only [h, if_true]
    refine ⟨?_, ?_, rfl⟩
    · intro after
      constructor
      · intro hok
        injection hok with hok
        exact ⟨trivial, hok.symm⟩
      · rintro ⟨_, hafter⟩
        rw [hafter]
    · intro hne
      exact absurd rfl hne
  · simp only [h, if_false]
    refine ⟨?_, ?_, rfl⟩
    · intro after
      constructor
      · intro hok
        cases hok
      · rintro ⟨hc, _⟩
        exact absurd hc (by simp)
    · intro _
      exact ⟨_, rfl⟩

/-- Witness of C11: in a graph of a producer and its consumer, the erase of
the producer is an error and the erase of the consumer removes it. -/
theorem eraseOp_only_without_uses_witness :
    sample.wrapped.rewriter.remainingUses sample.producer ≠ [] ∧
    (∃ message, sample.wrapped.eraseOp sample.producer = .error message) ∧
    sample.wrapped.eraseOp sample.consumer = .ok ⟨⟨[sample.producer], []⟩⟩ :=
  ⟨by decide,
    (eraseOp_only_without_uses sample.wrapped sample.producer).2.1 (by decide),
    ((eraseOp_only_without_uses sample.wrapped sample.consumer).1
      ⟨⟨[sample.producer], []⟩⟩).mpr ⟨by decide, by decide⟩⟩

end imex

namespace plier
open mlir

/-- C12: `CastOp::fold` returns a value exactly when the operand type equals
the result type and is not the undefined `PyType` (the one of empty name),
and the value is then the operand of the cast; a cast from the undefined type
is "unchanged", and so is every cast between different types. -/
theorem cast_fold_iff_same_defined_type (ir : IR) (op : CastOp) :
    (∀ v, CastOp.fold ir op = some v ↔
      v = op.operand ∧ ir.typeOf op.operand = ir.typeOf op.result ∧
      ir.typeOf op.operand ≠ Ty.pyType "") ∧
    (ir.typeOf op.operand = Ty.pyType "" → CastOp.fold ir op = none) ∧
    (ir.typeOf op.operand ≠ ir.typeOf op.result → CastOp.fold ir op = none) := by
  unfold CastOp.fold undefinedTy
  simp only []
  by_cases h : ir.typeOf op.operand = ir.typeOf op.result ∧
      ir.typeOf op.operand ≠ Ty.pyType ""
  · rw [if_pos h]
    refine ⟨?_, ?_, ?_⟩
    · intro v
      constructor
      · intro hv
        injection hv with hv
        exact ⟨hv.symm, h.1, h.2⟩
      · rintro ⟨hv, _, _⟩
        rw [hv]
    · intro hu; exact absurd hu h.2
    · intro hd; exact absurd h.1 hd
  · rw [if_neg h]
    refine ⟨?_, fun _ => rfl, fun _ => rfl⟩
    intro v
    constructor
    · intro hv; cases hv
    · rintro ⟨_, h1, h2⟩
      exact absurd ⟨h1, h2⟩ h

/-- Witness of C12: the cast of `b` to its own type folds to `b`, the cast
from the undefined type to the undefined type and the cast between two
different types are "unchanged". -/
theorem cast_fold_iff_same_defined_type_witness :
    CastOp.fold sample.graph sample.cast = some sample.valB ∧
    (sample.graph.typeOf sample.castUndefined.operand = Ty.pyType "" ∧
      sample.graph.typeOf sample.castUndefined.operand =
        sample.graph.typeOf sample.castUndefined.result ∧
      CastOp.fold sample.graph sample.castUndefined = none) ∧
    (sample.graph.typeOf sample.castDifferent.operand ≠
        sample.graph.typeOf sample.castDifferent.result ∧
      CastOp.fold sample.graph sample.castDifferent = none) :=
  ⟨((cast_fold_iff_same_defined_type sample.graph sample.cast).1 sample.valB).mpr
      ⟨by decide, by decide, by decide⟩,
    ⟨by decide, by decide,
      (cast_fold_iff_same_defined_type sample.graph sample.castUndefined).2.1
        (by decide)⟩,
    ⟨by decide,
      (cast_fold_iff_same_defined_type sample.graph sample.castDifferent).2.2
        (by decide)⟩⟩

/-- C13: `ArgOp::fold` never reads the argument list of the function out of
range (the fold with checked accesses always gives the fold result), and it
returns a value exactly when the op is nested in a function, `index()` is
below the number of arguments of that function, the value is argument number
`index()` and its type is the result type of the op; otherwise it is
"unchanged". -/
theorem arg_fold_iff_in_range_same_type (ir : IR) (parentFunc : Option FuncOp)
    (op : ArgOp) :
    ArgOp.foldChecked ir parentFunc op = some (ArgOp.fold ir parentFunc op) ∧
    (∀ v, ArgOp.fold ir parentFunc op = some v ↔
      ∃ func, parentFunc = some func ∧ op.index < func.getNumArguments ∧
        func.getArgument op.index = some v ∧
        ir.typeOf v = ir.typeOf op.result) := by
  refine ⟨?_, ?_⟩
  · unfold ArgOp.foldChecked ArgOp.fold
    cases parentFunc with
    | none => rfl
    | some func =>
      simp only []
      by_cases hlt : op.index < func.getNumArguments
      · have hget : func.getArgument op.index = some (func.arguments.get ⟨op.index, hlt⟩) := by
          unfold FuncOp.getArgument
          rw [List.get?_eq_get hlt]
        rw [if_pos hlt, dif_pos hlt, hget]
        simp only []
        by_cases ht : ir.typeOf (func.arguments.get ⟨op.index, hlt⟩) = ir.typeOf op.result
        · rw [if_pos ht, if_pos ht]
        · rw [if_neg ht, if_neg ht]
      · rw [if_neg hlt, dif_neg hlt]
  · intro v
    constructor
    · intro h
      obtain ⟨func, h1, h2, h3⟩ := argOp_fold_eq_some ir parentFunc op v h
      have hlt : op.index < func.arguments.length := by
        rcases List.getElem?_eq_some_iff.mp h2 with ⟨hl, _⟩
        exact hl
      refine ⟨func, h1, hlt, ?_, h3⟩
      unfold FuncOp.getArgument
      rw [List.get?_eq_getElem?]
      exact h2
    · rintro ⟨func, h1, hlt, hget, ht⟩
      subst h1
      unfold FuncOp.getArgument at hget
      rw [List.get?_eq_get hlt] at hget
      simp only [Option.some.injEq] at hget
      unfold ArgOp.fold
      simp only []
      rw [dif_pos hlt, hget, if_pos ht]

/-- The scenario of C13 evaluated: argument `1` of a function of two
arguments folds to that argument, argument `2` (out of range) and an op
outside any function are "unchanged", and no access is out of range. -/
theorem arg_fold_scenario :
    ArgOp.foldChecked sample.graph (some sample.func) sample.arg = some (some sample.valB) ∧
    ArgOp.foldChecked sample.graph (some sample.func) sample.argFar = some none ∧
    ArgOp.foldChecked sample.graph none sample.arg = some none := by
  decide

end plier

namespace plier
open mlir

theorem castInt64_le (n : Nat) : castInt64 n ≤ (n : Int) := by
  unfold castInt64
  split <;> omega

theorem castInt64_of_lt {n : Nat} (h : n < 2 ^ 32) : castInt64 n = (n : Int) := by
  unfold castInt64
  split <;> omega

theorem castUInt32_le (n : Nat) : castUInt32 n ≤ n := by
  unfold castUInt32
  omega

theorem castUInt32_of_lt {n : Nat} (h : n < 2 ^ 32) : castUInt32 n = n := by
  unfold castUInt32
  omega

theorem enforceShapeDim_unfold (ir : IR) (getConstVal : Value → Option Attribute)
    (op : DimOp) (rewriter : PatternRewriter) (enforce_op : EnforceShapeOp) (index : Int)
    (hdef : dynCastEnforceShapeOp (ir.definingOp op.memrefOrTensor) = some enforce_op)
    (hconst : dynCastIntegerAttr (getConstVal op.index) = some index) :
    EnforceShapeDim.matchAndRewrite ir getConstVal op rewriter =
      if index < 0 ∨ index ≥ castInt64 enforce_op.sizes.length then
        some (.failure, rewriter)
      else
        match enforce_op.sizes.get? (castUInt32 index.toNat) with
        | none => none
        | some size => some (.success, rewriter.replaceOp op.result size) := by
  unfold EnforceShapeDim.matchAndRewrite
  rw [hdef]
  simp only []
  rw [hconst]

theorem dynCastIntegerAttr_eq_some_iff (attr : Option Attribute) (index : Int) :
    dynCastIntegerAttr attr = some index ↔ attr = some (.integer index) := by
  cases attr with
  | none => simp [dynCastIntegerAttr]
  | some a =>
    cases a with
    | integer v => simp [dynCastIntegerAttr]
    | other k => simp [dynCastIntegerAttr]

/-- C14: the pattern `EnforceShapeDim` never reads the sizes of the
enforce-shape op out of range. When the number of size operands fits the 32
bits an operation stores it in, the pattern succeeds exactly when the source
of the dim op is defined by an `EnforceShapeOp`, the index operand is an
integer constant `k` and `0 ≤ k <` the number of size operands; the dim op is
then replaced by size operand number `k`; when it does not succeed it returns
failure and the rewriter has made no replacement. -/
theorem enforceShapeDim_succeeds_iff (ir : IR) (getConstVal : Value → Option Attribute)
    (op : DimOp) (rewriter : PatternRewriter) :
    (EnforceShapeDim.matchAndRewrite ir getConstVal op rewriter).isSome = true ∧
    ((∀ enforce_op,
        dynCastEnforceShapeOp (ir.definingOp op.memrefOrTensor) = some enforce_op →
        enforce_op.sizes.length < 2 ^ 32) →
      (∀ after,
        EnforceShapeDim.matchAndRewrite ir getConstVal op rewriter =
            some (.success, after) ↔
          ∃ (enforce_op : EnforceShapeOp) (k : Int) (size : Value),
            dynCastEnforceShapeOp (ir.definingOp op.memrefOrTensor) = some enforce_op ∧
            getConstVal op.index = some (.integer k) ∧
            0 ≤ k ∧ k < (enforce_op.sizes.length : Int) ∧
            enforce_op.sizes[k.toNat]? = some size ∧
            after = rewriter.replaceOp op.result size) ∧
      ((¬ ∃ after,
          EnforceShapeDim.matchAndRewrite ir getConstVal op rewriter =
            some (.success, after)) →
        EnforceShapeDim.matchAndRewrite ir getConstVal op rewriter =
          some (.failure, rewriter))) := by
  cases hdef : dynCastEnforceShapeOp (ir.definingOp op.memrefOrTensor) with
  | none =>
    have hrun : EnforceShapeDim.matchAndRewrite ir getConstVal op rewriter =
        some (.failure, rewriter) := by
      unfold EnforceShapeDim.matchAndRewrite
      rw [hdef]
    rw [hrun]
    refine ⟨rfl, fun _ => ⟨?_, fun _ => rfl⟩⟩
    intro after
    constructor
    · intro h
      simp only [Option.some.injEq, Prod.mk.injEq] at h
      exact absurd h.1 (by decide)
    · rintro ⟨_, _, _, h, _⟩
      cases h
  | some enforce_op =>
    cases hconst : dynCastIntegerAttr (getConstVal op.index) with
    | none =>
      have hrun : EnforceShapeDim.matchAndRewrite ir getConstVal op rewriter =
          some (.failure, rewriter) := by
        unfold EnforceShapeDim.matchAndRewrite
        rw [hdef]
        simp only []
        rw [hconst]
      rw [hrun]
      refine ⟨rfl, fun _ => ⟨?_, fun _ => rfl⟩⟩
      intro after
      constructor
      · intro h
        simp only [Option.some.injEq, Prod.mk.injEq] at h
        exact absurd h.1 (by decide)
      · rintro ⟨_, k, _, _, h, _⟩
        rw [h] at hconst
        cases hconst
    | some index =>
      have hattr := (dynCastIntegerAttr_eq_some_iff _ _).mp hconst
      rw [enforceShapeDim_unfold ir getConstVal op rewriter enforce_op index hdef hconst]
      by_cases hout : index < 0 ∨ index ≥ castInt64 enforce_op.sizes.length
      · rw [if_pos hout]
        refine ⟨rfl, fun hfit => ⟨?_, fun _ => rfl⟩⟩
        have hlen := hfit enforce_op rfl
        rw [castInt64_of_lt hlen] at hout
        intro after
        constructor
        · intro h
          simp only [Option.some.injEq, Prod.mk.injEq] at h
          exact absurd h.1 (by decide)
        · rintro ⟨e2, k, _, he, hk, h0, hlt, _⟩
          simp only [Option.some.injEq] at he
          subst he
          rw [hattr] at hk
          simp only [Option.some.injEq, Attribute.integer.injEq] at hk
          subst hk
          omega
      · rw [if_neg hout]
        have h0 : 0 ≤ index := by omega
        have hlt : index < (enforce_op.sizes.length : Int) := by
          have := castInt64_le enforce_op.sizes.length
          omega
        have hin : castUInt32 index.toNat < enforce_op.sizes.length := by
          have := castUInt32_le index.toNat
          omega
        rw [List.get?_eq_get hin]
        refine ⟨rfl, fun hfit => ⟨?_, ?_⟩⟩
        · have hlen := hfit enforce_op rfl
          have hcast : castUInt32 index.toNat = index.toNat :=
            castUInt32_of_lt (by omega)
          intro after
          constructor
          · intro h
            simp only [Option.some.injEq, Prod.mk.injEq, true_and] at h
            refine ⟨enforce_op, index, enforce_op.sizes.get ⟨castUInt32 index.toNat, hin⟩,
              rfl, hattr, h0, hlt, ?_, h.symm⟩
            rw [List.getElem?_eq_getElem (by omega)]
            simp only [List.get_eq_getElem, hcast]
          · rintro ⟨e2, k, size, he, hk, _, _, hsize, hafter⟩
            simp only [Option.some.injEq] at he
            subst he
            rw [hattr] at hk
            simp only [Option.some.injEq, Attribute.integer.injEq] at hk
            subst hk
            have hsz : enforce_op.sizes.get ⟨castUInt32 index.toNat, hin⟩ = size := by
              rw [List.getElem?_eq_getElem (by omega)] at hsize
              simp only [Option.some.injEq] at hsize
              simp only [List.get_eq_getElem, hcast]
              exact hsize
            rw [hsz, hafter]
        · intro hno
          exact absurd ⟨_, rfl⟩ hno

/-- Witness of C14: the dim op reading dimension `1` of an enforce-shape op
with two sizes is replaced by size operand `1`; the dim op reading dimension
`7` fails and leaves the rewriter as it is. -/
theorem enforceShapeDim_succeeds_iff_witness :
    (∀ enforce_op,
      dynCastEnforceShapeOp (sample.graphWithEnforce.definingOp sample.dim.memrefOrTensor) =
        some enforce_op → enforce_op.sizes.length < 2 ^ 32) ∧
    EnforceShapeDim.matchAndRewrite sample.graphWithEnforce sample.constants sample.dim
        ⟨[]⟩ = some (.success, ⟨[(sample.dimResult, sample.constValue1)]⟩) ∧
    EnforceShapeDim.matchAndRewrite sample.graphWithEnforce sample.constants sample.dimFar
        ⟨[]⟩ = some (.failure, ⟨[]⟩) :=
  have hfit : ∀ enforce_op,
      dynCastEnforceShapeOp (sample.graphWithEnforce.definingOp sample.dim.memrefOrTensor) =
        some enforce_op → enforce_op.sizes.length < 2 ^ 32 := by
    intro enforce_op h
    have hd : dynCastEnforceShapeOp
        (sample.graphWithEnforce.definingOp sample.dim.memrefOrTensor) =
        some sample.enforceShape := by decide
    rw [hd] at h
    simp only [Option.some.injEq] at h
    rw [← h]
    decide
  ⟨hfit,
    (((enforceShapeDim_succeeds_iff sample.graphWithEnforce sample.constants sample.dim
      ⟨[]⟩).2 hfit).1 ⟨[(sample.dimResult, sample.constValue1)]⟩).mpr
      ⟨sample.enforceShape, 1, sample.constValue1, by decide, by decide, by decide,
        by decide, by decide, by decide⟩,
    ((enforceShapeDim_succeeds_iff sample.graphWithEnforce sample.constants sample.dimFar
      ⟨[]⟩).2 hfit).2
      (by
        rintro ⟨after, h⟩
        have hd : EnforceShapeDim.matchAndRewrite sample.graphWithEnforce sample.constants
            sample.dimFar ⟨[]⟩ = some (.failure, ⟨[]⟩) := by decide
        rw [hd] at h
        simp only [Option.some.injEq, Prod.mk.injEq] at h
        exact absurd h.1 (by decide))⟩

theorem foldlM_pushBack {α : Type} (xs : List α) :
    ∀ acc : List α, acc.length ≤ smallVectorMaxSize →
      xs.foldlM smallVectorPushBack acc =
        if acc.length + xs.length ≤ smallVectorMaxSize then some (acc ++ xs) else none := by
  induction xs with
  | nil =>
    intro acc hacc
    rw [List.foldlM_nil, if_pos (by simpa using hacc), List.append_nil]
    rfl
  | cons x xs ih =>
    intro acc hacc
    rw [List.foldlM_cons]
    unfold smallVectorPushBack
    by_cases hlt : acc.length < smallVectorMaxSize
    · rw [if_pos hlt]
      show List.foldlM smallVectorPushBack (acc ++ [x]) xs = _
      rw [ih (acc ++ [x]) (by simp; omega)]
      have hl : (acc ++ [x]).length + xs.length = acc.length + (x :: xs).length := by
        simp; omega
      rw [hl]
      simp
    · rw [if_neg hlt, if_neg (by simp; omega)]
      rfl

theorem foldlM_buildStep (kwargs : List (String × Value)) :
    ∀ (names : List String) (values : List Value),
      names.length ≤ smallVectorMaxSize → values.length ≤ smallVectorMaxSize →
      kwargs.foldlM PyCallOp.buildStep (names, values) =
        if names.length + kwargs.length ≤ smallVectorMaxSize ∧
            values.length + kwargs.length ≤ smallVectorMaxSize then
          some (names ++ kwargs.map Prod.fst, values ++ kwargs.map Prod.snd)
        else none := by
  induction kwargs with
  | nil =>
    intro names values hn hv
    rw [List.foldlM_nil, if_pos (by simpa using ⟨hn, hv⟩)]
    simp
  | cons a kwargs ih =>
    intro names values hn hv
    rw [List.foldlM_cons]
    unfold PyCallOp.buildStep smallVectorPushBack
    by_cases h1 : names.length < smallVectorMaxSize
    · by_cases h2 : values.length < smallVectorMaxSize
      · simp only [if_pos h1, if_pos h2]
        show List.foldlM PyCallOp.buildStep (names ++ [a.1], values ++ [a.2]) kwargs = _
        rw [ih (names ++ [a.1]) (values ++ [a.2]) (by simp; omega) (by simp; omega)]
        have e1 : (names ++ [a.1]).length + kwargs.length =
            names.length + (a :: kwargs).length := by simp; omega
        have e2 : (values ++ [a.2]).length + kwargs.length =
            values.length + (a :: kwargs).length := by simp; omega
        rw [e1, e2]
        simp
      · simp only [if_pos h1, if_neg h2]
        rw [if_neg (by simp; omega)]
        rfl
    · simp only [if_neg h1]
      rw [if_neg (by simp; omega)]
      rfl

theorem build_eq (func : Value) (func_name : String) (args : List Value)
    (kwargs : List (String × Value)) :
    PyCallOp.build func func_name args kwargs =
      if args.length + kwargs.length ≤ smallVectorMaxSize then
        some ⟨undefinedTy, func, args ++ kwargs.map Prod.snd, func_name,
          args.length, kwargs.map Prod.fst⟩
      else none := by
  unfold PyCallOp.build smallVectorReserve
  by_cases hfit : args.length + kwargs.length ≤ smallVectorMaxSize
  · have hm : smallVectorMaxSize = 2 ^ 32 - 1 := rfl
    have h64 : (args.length + kwargs.length) % 2 ^ 64 = args.length + kwargs.length :=
      Nat.mod_eq_of_lt (by omega)
    have hr1 : ¬ (args.length + kwargs.length) % 2 ^ 64 > smallVectorMaxSize := by
      rw [h64]; omega
    have hr2 : ¬ kwargs.length > smallVectorMaxSize := by omega
    have hargs : args.foldlM smallVectorPushBack [] = some args := by
      rw [foldlM_pushBack args [] (by simp)]
      simp only [List.length_nil, List.nil_append]
      rw [if_pos (by omega)]
    have hkw : kwargs.foldlM PyCallOp.buildStep ([], args) =
        some (kwargs.map Prod.fst, args ++ kwargs.map Prod.snd) := by
      rw [foldlM_buildStep kwargs [] args (by simp) (by omega)]
      simp only [List.length_nil, List.nil_append]
      rw [if_pos ⟨by omega, hfit⟩]
    have hstart : castUInt32 args.length = args.length := by
      unfold castUInt32
      exact Nat.mod_eq_of_lt (by omega)
    rw [if_pos hfit, if_neg hr1]
    simp only [hargs, if_neg hr2, hkw, hstart]
  · rw [if_neg hfit]
    by_cases hr1 : (args.length + kwargs.length) % 2 ^ 64 > smallVectorMaxSize
    · rw [if_pos hr1]
    · rw [if_neg hr1]
      simp only []
      by_cases hla : args.length ≤ smallVectorMaxSize
      · have hargs : args.foldlM smallVectorPushBack [] = some args := by
          rw [foldlM_pushBack args [] (by simp)]
          simp only [List.length_nil, List.nil_append]
          rw [if_pos (by omega)]
        rw [hargs]
        simp only []
        by_cases hr2 : kwargs.length > smallVectorMaxSize
        · rw [if_pos hr2]
        · rw [if_neg hr2]
          simp only []
          rw [foldlM_buildStep kwargs [] args (by simp) hla]
          rw [if_neg (by
            rintro ⟨_, h⟩
            exact hfit h)]
      · have hargs : args.foldlM smallVectorPushBack [] = none := by
          rw [foldlM_pushBack args [] (by simp)]
          simp only [List.length_nil]
          rw [if_neg (by omega)]
        rw [hargs]

/-- C15: `PyCallOp::build` returns for every input whose positional
arguments and keywords together fit a vector, and it returns for no other
input; whenever it returns, the argument list is the positional arguments
followed by the keyword values in keyword order, `kw_start` is the number of
positional arguments, `kw_names` is the keyword names in the same order, the
number of arguments is `kw_start` plus the number of `kw_names`, and keyword
name `j` labels argument `kw_start + j`. -/
theorem pyCall_build_layout (func : Value) (func_name : String) (args : List Value)
    (kwargs : List (String × Value)) :
    ((∃ op, PyCallOp.build func func_name args kwargs = some op) ↔
      args.length + kwargs.length < 2 ^ 32) ∧
    (∀ op, PyCallOp.build func func_name args kwargs = some op →
      op.args = args ++ kwargs.map Prod.snd ∧
      op.kw_start = args.length ∧
      op.kw_names = kwargs.map Prod.fst ∧
      op.args.length = op.kw_start + op.kw_names.length ∧
      (∀ (j : Nat) (name : String) (value : Value), kwargs[j]? = some (name, value) →
        op.kw_names[j]? = some name ∧ op.args[op.kw_start + j]? = some value)) := by
  rw [build_eq]
  have hm : smallVectorMaxSize = 2 ^ 32 - 1 := rfl
  by_cases hfit : args.length + kwargs.length ≤ smallVectorMaxSize
  · rw [if_pos hfit]
    refine ⟨⟨fun _ => by omega, fun _ => ⟨_, rfl⟩⟩, ?_⟩
    intro op hop
    simp only [Option.some.injEq] at hop
    subst hop
    refine ⟨rfl, rfl, rfl, ?_, ?_⟩
    · show (args ++ kwargs.map Prod.snd).length = args.length + (kwargs.map Prod.fst).length
      rw [List.length_append, List.length_map, List.length_map]
    · intro j name value hj
      refine ⟨?_, ?_⟩
      · show (kwargs.map Prod.fst)[j]? = some name
        rw [List.getElem?_map, hj]; rfl
      · show (args ++ kwargs.map Prod.snd)[args.length + j]? = some value
        rw [List.getElem?_append_right (by omega)]
        simp only [Nat.add_sub_cancel_left]
        rw [List.getElem?_map, hj]; rfl
  · rw [if_neg hfit]
    refine ⟨⟨?_, fun h => absurd (show args.length + kwargs.length ≤ smallVectorMaxSize by omega) hfit⟩, ?_⟩
    · rintro ⟨op, hop⟩
      cases hop
    · intro op hop
      cases hop

/-- Witness of C15: two positional arguments and the keyword `k`. -/
theorem pyCall_build_layout_witness :
    PyCallOp.build sample.valA "f" [sample.valB, sample.valC] [("k", sample.valA)] =
      some ⟨undefinedTy, sample.valA, [sample.valB, sample.valC, sample.valA], "f", 2,
        ["k"]⟩ ∧
    ([sample.valB, sample.valC, sample.valA] = [sample.valB, sample.valC] ++
        [("k", sample.valA)].map Prod.snd ∧
      2 = [sample.valB, sample.valC].length ∧
      ["k"] = [("k", sample.valA)].map Prod.fst ∧
      [sample.valB, sample.valC, sample.valA].length = 2 + ["k"].length ∧
      (["k"][0]? = some "k" ∧
        [sample.valB, sample.valC, sample.valA][2 + 0]? = some sample.valA)) :=
  ⟨by decide,
    match (pyCall_build_layout sample.valA "f" [sample.valB, sample.valC]
      [("k", sample.valA)]).2
      ⟨undefinedTy, sample.valA, [sample.valB, sample.valC, sample.valA], "f", 2, ["k"]⟩
      (by decide) with
    | ⟨h1, h2, h3, h4, h5⟩ => ⟨h1, h2, h3, h4, h5 0 "k" sample.valA rfl⟩⟩

end plier
